import Mathlib

/-!
Bassline Customs banking core (`src/banking.js`)

A shallow embedding of the ledger functions of `banking.js`.

Modelling conventions
* `localStorage` holds three JSON arrays (users, transactions, loans); the
  store is a record of three lists, a missing key being the empty list
  (`data ? JSON.parse(data) : []`).
* JavaScript numbers that carry money or rates are exact rationals; `term`
  and `termRemaining` are integers (they can become negative).
* A division whose divisor is `0` yields a non-finite JavaScript number
  (`Infinity`, `-Infinity` or `NaN`), which `JSON.stringify` writes as `null`;
  the field `monthlyPayment` is therefore an `Option ℚ`, `none` standing for
  that non-finite / `null` value.
* `generateId()`, `new Date().toISOString()` and `getNextPaymentDate()` read
  the clock and the random generator; their results are inputs of the model.
* Strings are compared with `===`, modelled by equality of `String`.
* A JavaScript string is a sequence of UTF-16 code units and `slice` can cut
  a surrogate pair; the result of `generateBankReference` is therefore kept as
  its list of code units (`utf16` gives the code units of a `String`).
-/

namespace Banking

/-! ## Data model -/

/-- Entry of a loan's `payments` array: `{ date, amount }`. -/
structure Payment where
  date : String
  amount : ℚ
deriving DecidableEq, Repr

/-- Stored user record, as built by `registerNewUser`. -/
structure User where
  id : String
  name : String
  email : String
  phone : String
  password : String
  balance : ℚ
  createdAt : String
deriving DecidableEq, Repr

/-- Stored transaction record, as built by `processTransaction`;
`bankReference` is a field that exists only on some records, a string given by
its UTF-16 code units. -/
structure Transaction where
  id : String
  userId : String
  service : String
  amount : ℚ
  method : String
  term : Int
  interestRate : ℚ
  status : String
  date : String
  bankReference : Option (List Int)
deriving DecidableEq, Repr

/-- Stored loan record, as built by `createLoan`. -/
structure Loan where
  id : String
  userId : String
  transactionId : String
  originalAmount : ℚ
  totalAmount : ℚ
  interestRate : ℚ
  monthlyPayment : Option ℚ
  term : Int
  termRemaining : Int
  status : String
  startDate : String
  nextPaymentDate : String
  payments : List Payment
deriving DecidableEq, Repr

/-- Contents of `localStorage` under the three collection keys of
`STORAGE_KEYS`. -/
structure Store where
  users : List User
  transactions : List Transaction
  loans : List Loan
deriving DecidableEq, Repr

/-- The `details` argument of `processTransaction`.  `service`, `services`
and `status` may be absent (`none`).  `amount`, `term` and `interestRate` are
numbers; a caller that leaves `term` or `interestRate` out of a non-installment
purchase is represented by the value `0`, which is what `details.term || 0`
stores in the transaction. -/
structure Details where
  service : Option String
  services : Option String
  amount : ℚ
  method : String
  term : Int
  interestRate : ℚ
  status : Option String
deriving DecidableEq, Repr

/-- Values read from the clock and the random generator while one loan is
created: `generateId()`, `new Date().toISOString()`, `getNextPaymentDate()`. -/
structure LoanStamp where
  id : String
  startDate : String
  nextPaymentDate : String
deriving DecidableEq, Repr

/-- One call `makePayment(loanId, amount)` together with the clock reading
`new Date().toISOString()` taken inside it. -/
structure PaymentCall where
  date : String
  loanId : String
  amount : ℚ
deriving DecidableEq, Repr

/-! ## JavaScript helpers -/

/-- Truthiness of a possibly absent string: `undefined` and `''` are falsy. -/
def truthyStr : Option String → Bool
  | none => false
  | some v => v != ""

/-- The expression `a || b` on possibly absent strings. -/
def orStr (a b : Option String) : Option String :=
  if truthyStr a then a else b

/-- The expression `a || d` where `d` is a string literal. -/
def orStrLit (a : Option String) (d : String) : String :=
  match orStr a (some d) with
  | some v => v
  | none => d

/-- The expression `n || 0` on an integer: `0` is the only falsy integer. -/
def orZeroInt (n : Int) : Int :=
  if n ≠ 0 then n else 0

/-- The expression `x || 0` on a rational number. -/
def orZeroRat (x : ℚ) : ℚ :=
  if x ≠ 0 then x else 0

/-- The division `a / b` as it is persisted: a zero divisor gives a non-finite
number, written as `null`. -/
def jsDiv (a : ℚ) (b : Int) : Option ℚ :=
  if b = 0 then none else some (a / (b : ℚ))

/-- The UTF-16 code units of one character, as `charCodeAt` sees them. -/
def utf16Units (c : Char) : List Int :=
  if c.toNat < 65536 then [(c.toNat : Int)]
  else
    [((55296 + (c.toNat - 65536) / 1024 : Nat) : Int),
     ((56320 + (c.toNat - 65536) % 1024 : Nat) : Int)]

/-- The UTF-16 code units of a string, the elements that `length`, `slice` and
`charCodeAt` count. -/
def utf16 (str : String) : List Int :=
  str.data.flatMap utf16Units

/-- The call `str.slice(-n)` on the code units of `str`: the last `n` code
units, all of them when the string is shorter. -/
def sliceLast (n : Nat) (units : List Int) : List Int :=
  units.drop (units.length - n)

/-- Array update through the reference returned by `Array.prototype.find`:
the first element satisfying `p` is replaced by `f` of it, every other element
and the order are kept. -/
def modifyFirst {α : Type} (p : α → Bool) (f : α → α) : List α → List α
  | [] => []
  | x :: xs => if p x then f x :: xs else x :: modifyFirst p f xs

/-! ## Constants -/

/-- The field `MERCHANT_BANK_DETAILS.referencePrefix`. -/
def MERCHANT_REFERENCE_TAG : String := "BLC"

/-! ## Transactions -/

/-- `generateBankReference(transactionId)`: the code units of the template
string made of the reference tag, `-` and `transactionId.slice(-8)`. -/
def generateBankReference (transactionId : String) : List Int :=
  utf16 MERCHANT_REFERENCE_TAG ++ utf16 "-" ++ sliceLast 8 (utf16 transactionId)

/-- `getTransactions(userId)`. -/
def getTransactions (s : Store) (userId : String) : List Transaction :=
  s.transactions.filter (fun t => t.userId == userId)

/-- `getAllLoans()`. -/
def getAllLoans (s : Store) : List Loan :=
  s.loans

/-- `createLoan(userId, transactionId, amount, interestRate, term)`: the
returned loan and the store after `localStorage.setItem`. -/
def createLoan (s : Store) (g : LoanStamp) (userId transactionId : String)
    (amount interestRate : ℚ) (term : Int) : Loan × Store :=
  let loans := getAllLoans s
  let interest := amount * interestRate
  let totalAmount := amount + interest
  let monthlyPayment := jsDiv totalAmount term
  let loan : Loan :=
    { id := g.id
      userId := userId
      transactionId := transactionId
      originalAmount := amount
      totalAmount := totalAmount
      interestRate := interestRate
      monthlyPayment := monthlyPayment
      term := term
      termRemaining := term
      status := "active"
      startDate := g.startDate
      nextPaymentDate := g.nextPaymentDate
      payments := [] }
  (loan, { s with loans := loans ++ [loan] })

/-- `processTransaction(userId, details)`: the returned transaction and the
store after all writes.  `txId` and `txDate` are the values of `generateId()`
and `new Date().toISOString()` for the transaction, `g` the ones read by
`createLoan` when it is called. -/
def processTransaction (s : Store) (txId txDate : String) (g : LoanStamp)
    (userId : String) (details : Details) : Transaction × Store :=
  let transactions := getTransactions s userId
  let transaction : Transaction :=
    { id := txId
      userId := userId
      service := orStrLit (orStr details.service details.services) ""
      amount := details.amount
      method := details.method
      term := orZeroInt details.term
      interestRate := orZeroRat details.interestRate
      status := orStrLit details.status "pending"
      date := txDate
      bankReference := none }
  let s1 : Store := { s with transactions := transactions ++ [transaction] }
  let r : Transaction × Store :=
    if details.method = "bank" then
      let tagged : Transaction :=
        { transaction with bankReference := some (generateBankReference transaction.id) }
      (tagged, { s1 with transactions := transactions ++ [tagged] })
    else (transaction, s1)
  let s3 : Store :=
    if details.method = "installment" then
      (createLoan r.2 g userId r.1.id details.amount details.interestRate details.term).2
    else r.2
  (r.1, s3)

/-! ## Loans -/

/-- Body of the `if (loan)` branch of `makePayment`, on the loan found. -/
def applyPaymentTo (date : String) (amount : ℚ) (loan : Loan) : Loan :=
  let l1 : Loan := { loan with payments := loan.payments ++ [{ date := date, amount := amount }] }
  let l2 : Loan := { l1 with termRemaining := l1.termRemaining - 1 }
  if l2.termRemaining ≤ 0 then { l2 with status := "completed" } else l2

/-- `makePayment(loanId, amount)`: the returned boolean and the store
afterwards. -/
def makePayment (s : Store) (date loanId : String) (amount : ℚ) : Bool × Store :=
  let loans := getAllLoans s
  match loans.find? (fun l => l.id == loanId) with
  | some _ =>
    (true, { s with loans := modifyFirst (fun l => l.id == loanId) (applyPaymentTo date amount) loans })
  | none => (false, s)

/-- `getLoanDetails(loanId)`. -/
def getLoanDetails (s : Store) (loanId : String) : Option Loan :=
  (getAllLoans s).find? (fun l => l.id == loanId)

/-- Store reached by a finite sequence of `makePayment` calls. -/
def makePayments (s : Store) (calls : List PaymentCall) : Store :=
  calls.foldl (fun st c => (makePayment st c.date c.loanId c.amount).2) s

/-- The empty `localStorage`. -/
def emptyStore : Store :=
  { users := [], transactions := [], loans := [] }

/-! ## Users -/

/-- The object returned by `registerNewUser`: the user without its password. -/
structure PublicUser where
  id : String
  name : String
  email : String
  phone : String
  balance : ℚ
deriving DecidableEq, Repr

/-- The conversion of a number to a signed 32-bit integer made by the bitwise
operators `<<` and `&`. -/
def toInt32 (x : Int) : Int :=
  (x + 2 ^ 31) % 2 ^ 32 - 2 ^ 31

/-- One round of the loop of `hashPassword`:
`hash = ((hash << 5) - hash) + char; hash = hash & hash`. -/
def hashStep (hash char : Int) : Int :=
  toInt32 ((toInt32 (hash * 32) - hash) + char)

/-- `hashPassword(password)`. -/
def hashPassword (password : String) : String :=
  toString ((password.data.flatMap utf16Units).foldl hashStep 0)

/-- `getAllUsers()`. -/
def getAllUsers (s : Store) : List User :=
  s.users

/-- `registerNewUser(name, email, phone, password)`: the returned value
(`none` for `null`) and the store afterwards.  `newId` and `now` are the values
of `generateId()` and `new Date().toISOString()`. -/
def registerNewUser (s : Store) (newId now : String) (name email phone password : String) :
    Option PublicUser × Store :=
  let users := getAllUsers s
  match users.find? (fun u => u.email == email) with
  | some _ => (none, s)
  | none =>
    let newUser : User :=
      { id := newId
        name := name
        email := email
        phone := phone
        password := hashPassword password
        balance := 0
        createdAt := now }
    (some
        { id := newUser.id
          name := newUser.name
          email := newUser.email
          phone := newUser.phone
          balance := newUser.balance },
      { s with users := users ++ [newUser] })

/-- `updateUserBalance(userId, amount)`: the store afterwards. -/
def updateUserBalance (s : Store) (userId : String) (amount : ℚ) : Store :=
  let users := getAllUsers s
  match users.find? (fun u => u.id == userId) with
  | some _ =>
    { s with
      users := modifyFirst (fun u => u.id == userId)
        (fun u => { u with balance := u.balance + amount }) users }
  | none => s

/-! ## Transaction status -/

/-- `updateTransactionStatus(transactionId, newStatus)`: the returned boolean
and the store afterwards. -/
def updateTransactionStatus (s : Store) (transactionId newStatus : String) : Bool × Store :=
  let allTransactions := s.transactions
  match allTransactions.find? (fun t => t.id == transactionId) with
  | none => (false, s)
  | some _ =>
    (true,
      { s with
        transactions := modifyFirst (fun t => t.id == transactionId)
          (fun t => { t with status := newStatus }) allTransactions })

/-! ## Reports -/

/-- `getActiveLoans(userId)`. -/
def getActiveLoans (s : Store) (userId : String) : List Loan :=
  s.loans.filter (fun l => l.userId == userId && l.status == "active")

/-- The numeric value of a stored number that may be `null`: `null` counts as
`0` in a product. -/
def nullToNumber : Option ℚ → ℚ
  | some x => x
  | none => 0

/-- The object returned by `getAccountSummary`; `lastTransaction` is `none`
for `null`. -/
structure AccountSummary where
  totalSpent : ℚ
  transactionCount : Nat
  activeLoans : Nat
  outstandingBalance : ℚ
  lastTransaction : Option Transaction
deriving DecidableEq, Repr

/-- `getAccountSummary(userId)`. -/
def getAccountSummary (s : Store) (userId : String) : AccountSummary :=
  let transactions := getTransactions s userId
  let activeLoans := getActiveLoans s userId
  let totalSpent := transactions.foldl (fun sum t => sum + t.amount) 0
  let outstandingBalance :=
    activeLoans.foldl
      (fun sum l => sum + (nullToNumber l.monthlyPayment * (l.termRemaining : ℚ))) 0
  { totalSpent := totalSpent
    transactionCount := transactions.length
    activeLoans := activeLoans.length
    outstandingBalance := outstandingBalance
    lastTransaction :=
      if transactions.length > 0 then transactions[transactions.length - 1]? else none }

/-- The readings `new Date(str).getFullYear()` and `new Date(str).getMonth()`
of the platform's `Date` object (local time, months counted from 0); `none`
stands for the `NaN` of an invalid date. -/
structure Calendar where
  getFullYear : String → Option Int
  getMonth : String → Option Int

/-- The object returned by `getMonthlySummary`. -/
structure MonthlySummary where
  month : Int
  year : Int
  transactions : List Transaction
  totalAmount : ℚ
deriving DecidableEq, Repr

/-- `getMonthlySummary(userId, year, month)`. -/
def getMonthlySummary (cal : Calendar) (s : Store) (userId : String) (year month : Int) :
    MonthlySummary :=
  let transactions := getTransactions s userId
  let monthTransactions :=
    transactions.filter
      (fun t => cal.getFullYear t.date == some year && cal.getMonth t.date == some (month - 1))
  let totalAmount := monthTransactions.foldl (fun sum t => sum + t.amount) 0
  { month := month
    year := year
    transactions := monthTransactions
    totalAmount := totalAmount }

/-! ## Histories of loan operations -/

/-- One loan operation of a history: a `createLoan` call with the values it
reads, or a `makePayment` call. -/
inductive LedgerOp where
  | create (g : LoanStamp) (userId transactionId : String) (amount interestRate : ℚ)
      (term : Int)
  | pay (c : PaymentCall)
deriving DecidableEq, Repr

/-- The store after one operation. -/
def applyOp (s : Store) : LedgerOp → Store
  | LedgerOp.create g userId transactionId amount interestRate term =>
    (createLoan s g userId transactionId amount interestRate term).2
  | LedgerOp.pay c => (makePayment s c.date c.loanId c.amount).2

/-- The store after a history of operations. -/
def runOps (s : Store) (ops : List LedgerOp) : Store :=
  ops.foldl applyOp s

/-- The precondition of `createLoan` in a history: `term ≥ 1`, `amount ≥ 0`,
`interestRate ≥ 0`; a payment is always admitted. -/
def admissibleOp : LedgerOp → Prop
  | LedgerOp.create _ _ _ amount interestRate term => 1 ≤ term ∧ 0 ≤ amount ∧ 0 ≤ interestRate
  | LedgerOp.pay _ => True

/-! ## Auxiliary functions used in the proofs -/

/-- Effect of one `makePayment` call on the stored loans array. -/
def payStep (loans : List Loan) (c : PaymentCall) : List Loan :=
  modifyFirst (fun l => l.id == c.loanId) (applyPaymentTo c.date c.amount) loans

/-- Effect on one loan of the calls that reach it, in order. -/
def payAll (calls : List PaymentCall) (l : Loan) : Loan :=
  calls.foldl (fun acc c => applyPaymentTo c.date c.amount acc) l

/-- The invariant of a loan along a history of admissible operations: the
term is at least 1, an active loan has a payment left, the monthly payment is
a non-negative number with `monthlyPayment * term = totalAmount`, and the
number of payments is `term - termRemaining`. -/
def loanSound (l : Loan) : Prop :=
  1 ≤ l.term
    ∧ (l.status = "active" → 1 ≤ l.termRemaining)
    ∧ (∃ m : ℚ, l.monthlyPayment = some m ∧ 0 ≤ m ∧ m * (l.term : ℚ) = l.totalAmount)
    ∧ (l.payments.length : Int) = l.term - l.termRemaining

/-! ## Basic facts about the helpers -/

theorem modifyFirst_length {α : Type} (p : α → Bool) (f : α → α) (xs : List α) :
    (modifyFirst p f xs).length = xs.length := by
  induction xs with
  | nil => rfl
  | cons x xs ih =>
    by_cases hx : p x = true
    · simp [modifyFirst, hx]
    · simp [modifyFirst, hx, ih]

theorem modifyFirst_of_none {α : Type} (p : α → Bool) (f : α → α) (xs : List α)
    (h : ∀ x ∈ xs, p x = false) : modifyFirst p f xs = xs := by
  induction xs with
  | nil => rfl
  | cons x xs ih =>
    have hx : p x = false := h x (List.mem_cons_self x xs)
    have hxs : ∀ y ∈ xs, p y = false := fun y hy => h y (List.mem_cons_of_mem x hy)
    simp [modifyFirst, hx, ih hxs]

theorem modifyFirst_append_hit {α : Type} (p : α → Bool) (f : α → α) (pre : List α) (x : α)
    (h : ∀ y ∈ pre, p y = false) (hx : p x = true) :
    modifyFirst p f (pre ++ [x]) = pre ++ [f x] := by
  induction pre with
  | nil => simp [modifyFirst, hx]
  | cons y ys ih =>
    have hy : p y = false := h y (List.mem_cons_self y ys)
    have hys : ∀ z ∈ ys, p z = false := fun z hz => h z (List.mem_cons_of_mem y hz)
    simp [modifyFirst, hy, ih hys]

theorem modifyFirst_append_miss {α : Type} (p : α → Bool) (f : α → α) (pre : List α) (x : α)
    (hx : p x = false) :
    modifyFirst p f (pre ++ [x]) = modifyFirst p f pre ++ [x] := by
  induction pre with
  | nil => simp [modifyFirst, hx]
  | cons y ys ih =>
    by_cases hy : p y = true
    · simp [modifyFirst, hy]
    · simp [modifyFirst, hy, ih]

theorem modifyFirst_getElem? {α : Type} (p : α → Bool) (f : α → α) (xs : List α) (i : Nat)
    (x : α) (h : xs[i]? = some x) :
    (modifyFirst p f xs)[i]? = some x ∨ (modifyFirst p f xs)[i]? = some (f x) := by
  induction xs generalizing i with
  | nil => simp at h
  | cons y ys ih =>
    by_cases hy : p y = true
    · cases i with
      | zero =>
        simp at h
        subst h
        right
        simp [modifyFirst, hy]
      | succ j =>
        left
        simpa [modifyFirst, hy] using h
    · cases i with
      | zero =>
        left
        simpa [modifyFirst, hy] using h
      | succ j =>
        have hj : ys[j]? = some x := by simpa using h
        simpa [modifyFirst, hy] using ih j hj

theorem modifyFirst_map_of_fixed {α β : Type} (p : α → Bool) (f : α → α) (k : α → β)
    (hk : ∀ x, k (f x) = k x) (xs : List α) :
    (modifyFirst p f xs).map k = xs.map k := by
  induction xs with
  | nil => rfl
  | cons x xs ih =>
    by_cases hx : p x = true
    · simp [modifyFirst, hx, hk]
    · simp [modifyFirst, hx, ih]

theorem applyPaymentTo_id (date : String) (amount : ℚ) (l : Loan) :
    (applyPaymentTo date amount l).id = l.id := by
  unfold applyPaymentTo
  dsimp only
  split <;> rfl

theorem applyPaymentTo_term (date : String) (amount : ℚ) (l : Loan) :
    (applyPaymentTo date amount l).term = l.term := by
  unfold applyPaymentTo
  dsimp only
  split <;> rfl

theorem applyPaymentTo_termRemaining (date : String) (amount : ℚ) (l : Loan) :
    (applyPaymentTo date amount l).termRemaining = l.termRemaining - 1 := by
  unfold applyPaymentTo
  dsimp only
  split <;> rfl

theorem applyPaymentTo_payments (date : String) (amount : ℚ) (l : Loan) :
    (applyPaymentTo date amount l).payments
      = l.payments ++ [{ date := date, amount := amount }] := by
  unfold applyPaymentTo
  dsimp only
  split <;> rfl

theorem applyPaymentTo_status (date : String) (amount : ℚ) (l : Loan) :
    (applyPaymentTo date amount l).status
      = if l.termRemaining - 1 ≤ 0 then "completed" else l.status := by
  unfold applyPaymentTo
  dsimp only
  split <;> rfl

theorem makePayment_of_find_none (s : Store) (date loanId : String) (amount : ℚ)
    (h : s.loans.find? (fun l => l.id == loanId) = none) :
    makePayment s date loanId amount = (false, s) := by
  simp only [makePayment, getAllLoans, h]

theorem makePayment_of_find_some (s : Store) (date loanId : String) (amount : ℚ) (l : Loan)
    (h : s.loans.find? (fun l => l.id == loanId) = some l) :
    makePayment s date loanId amount
      = (true,
          { s with
            loans := modifyFirst (fun l => l.id == loanId) (applyPaymentTo date amount) s.loans })
        := by
  simp only [makePayment, getAllLoans, h]

theorem find?_eq_none_of_ids (loans : List Loan) (loanId : String) :
    loans.find? (fun l => l.id == loanId) = none ↔ ∀ l ∈ loans, l.id ≠ loanId := by
  simp [List.find?_eq_none]

/-! ## Code units and `slice` -/

theorem sliceLast_suffix (n : Nat) (units : List Int) :
    List.IsSuffix (sliceLast n units) units :=
  List.drop_suffix _ _

theorem sliceLast_length (n : Nat) (units : List Int) :
    (sliceLast n units).length = min n units.length := by
  unfold sliceLast
  rw [List.length_drop]
  omega

theorem suffix_unique (a b units : List Int) (ha : List.IsSuffix a units)
    (hb : List.IsSuffix b units) (hl : a.length = b.length) : a = b := by
  rcases List.suffix_or_suffix_of_suffix ha hb with h | h
  · exact h.eq_of_length hl
  · exact (h.eq_of_length hl.symm).symm

theorem eq_sliceLast_of_suffix (n : Nat) (a units : List Int) (ha : List.IsSuffix a units)
    (hl : a.length = min n units.length) : a = sliceLast n units :=
  suffix_unique a (sliceLast n units) units ha (sliceLast_suffix n units)
    (by rw [hl, sliceLast_length])

theorem flatMap_utf16Units_of_bmp (cs : List Char) (h : ∀ c ∈ cs, c.toNat < 65536) :
    cs.flatMap utf16Units = cs.map (fun c => (c.toNat : Int)) := by
  induction cs with
  | nil => rfl
  | cons c rest ih =>
    have hc : c.toNat < 65536 := h c (List.mem_cons_self c rest)
    have hrest : ∀ d ∈ rest, d.toNat < 65536 := fun d hd => h d (List.mem_cons_of_mem c hd)
    simp only [List.flatMap_cons, List.map_cons, ih hrest]
    simp [utf16Units, hc]

theorem sliceLast_utf16_of_bmp (n : Nat) (str : String) (h : ∀ c ∈ str.data, c.toNat < 65536) :
    sliceLast n (utf16 str)
      = (str.data.drop (str.data.length - n)).map (fun c => (c.toNat : Int)) := by
  unfold sliceLast utf16
  rw [flatMap_utf16Units_of_bmp str.data h, List.length_map, List.map_drop]

theorem utf16_reference_tag : utf16 MERCHANT_REFERENCE_TAG ++ utf16 "-" = [66, 76, 67, 45] := by
  decide

/-! ## Sequences of payments -/

theorem makePayment_loans (s : Store) (date loanId : String) (amount : ℚ) :
    (makePayment s date loanId amount).2.loans
      = modifyFirst (fun l => l.id == loanId) (applyPaymentTo date amount) s.loans := by
  cases hfind : s.loans.find? (fun l => l.id == loanId) with
  | none =>
    rw [makePayment_of_find_none s date loanId amount hfind]
    have hall : ∀ x ∈ s.loans, (fun l : Loan => l.id == loanId) x = false := by
      intro x hx
      have := (find?_eq_none_of_ids s.loans loanId).mp hfind x hx
      simpa using this
    exact (modifyFirst_of_none _ _ s.loans hall).symm
  | some l =>
    rw [makePayment_of_find_some s date loanId amount l hfind]

theorem makePayments_loans (calls : List PaymentCall) (s : Store) :
    (makePayments s calls).loans = calls.foldl payStep s.loans := by
  induction calls generalizing s with
  | nil => rfl
  | cons c cs ih =>
    simp only [makePayments, List.foldl_cons] at ih ⊢
    rw [ih, makePayment_loans]
    rfl

theorem payStep_getElem? (loans : List Loan) (c : PaymentCall) (i : Nat) (l : Loan)
    (h : loans[i]? = some l) :
    (payStep loans c)[i]? = some l ∨ (payStep loans c)[i]? = some (applyPaymentTo c.date c.amount l) :=
  modifyFirst_getElem? _ _ loans i l h

/-- A property of a loan that every payment preserves holds, at the same
position of the array, after any sequence of `makePayment` calls. -/
theorem foldl_payStep_preserves (P : Loan → Prop)
    (hP : ∀ (date : String) (amount : ℚ) (l : Loan), P l → P (applyPaymentTo date amount l))
    (calls : List PaymentCall) (loans : List Loan) (i : Nat) (l : Loan)
    (h : loans[i]? = some l) (hl : P l) :
    ∃ l', (calls.foldl payStep loans)[i]? = some l' ∧ P l' := by
  induction calls generalizing loans l with
  | nil => exact ⟨l, h, hl⟩
  | cons c cs ih =>
    rw [List.foldl_cons]
    rcases payStep_getElem? loans c i l h with h1 | h1
    · exact ih (payStep loans c) l h1 hl
    · exact ih (payStep loans c) _ h1 (hP c.date c.amount l hl)

theorem payStep_append_last (pre : List Loan) (l : Loan) (c : PaymentCall)
    (hpre : ∀ x ∈ pre, x.id ≠ l.id) :
    ∃ pre', payStep (pre ++ [l]) c
        = pre' ++ [if c.loanId = l.id then applyPaymentTo c.date c.amount l else l]
      ∧ ∀ x ∈ pre', x.id ≠ l.id := by
  by_cases hc : c.loanId = l.id
  · refine ⟨pre, ?_, hpre⟩
    rw [if_pos hc]
    apply modifyFirst_append_hit
    · intro y hy
      have := hpre y hy
      simpa [hc] using this
    · simp [hc]
  · refine ⟨modifyFirst (fun x => x.id == c.loanId) (applyPaymentTo c.date c.amount) pre, ?_, ?_⟩
    · rw [if_neg hc]
      apply modifyFirst_append_miss
      simpa using fun h : l.id = c.loanId => hc h.symm
    · intro x hx
      have hmap := modifyFirst_map_of_fixed (fun x : Loan => x.id == c.loanId)
        (applyPaymentTo c.date c.amount) Loan.id (applyPaymentTo_id c.date c.amount) pre
      have hxid : x.id ∈ pre.map Loan.id := by
        rw [← hmap]
        exact List.mem_map_of_mem Loan.id hx
      obtain ⟨y, hy, hyx⟩ := List.mem_map.mp hxid
      rw [← hyx]
      exact hpre y hy

theorem payAll_id (calls : List PaymentCall) (l : Loan) : (payAll calls l).id = l.id := by
  induction calls generalizing l with
  | nil => rfl
  | cons c cs ih =>
    simp only [payAll, List.foldl_cons] at ih ⊢
    rw [ih, applyPaymentTo_id]

/-- When the last loan is the only one with its id, a sequence of calls acts
on it through exactly the calls that name its id. -/
theorem foldl_payStep_append_last (calls : List PaymentCall) (pre : List Loan) (l : Loan)
    (hpre : ∀ x ∈ pre, x.id ≠ l.id) :
    ∃ pre', calls.foldl payStep (pre ++ [l])
        = pre' ++ [payAll (calls.filter (fun c => c.loanId == l.id)) l]
      ∧ ∀ x ∈ pre', x.id ≠ l.id := by
  induction calls generalizing pre l with
  | nil => exact ⟨pre, rfl, hpre⟩
  | cons c cs ih =>
    obtain ⟨pre1, h1, hpre1⟩ := payStep_append_last pre l c hpre
    rw [List.foldl_cons, h1]
    by_cases hc : c.loanId = l.id
    · rw [if_pos hc]
      have hid := applyPaymentTo_id c.date c.amount l
      obtain ⟨pre2, h2, hpre2⟩ := ih pre1 (applyPaymentTo c.date c.amount l)
        (by rw [hid]; exact hpre1)
      refine ⟨pre2, ?_, by rw [hid] at hpre2; exact hpre2⟩
      rw [h2, hid]
      simp [List.filter_cons, hc, payAll]
    · rw [if_neg hc]
      obtain ⟨pre2, h2, hpre2⟩ := ih pre1 l hpre1
      refine ⟨pre2, ?_, hpre2⟩
      rw [h2]
      simp [List.filter_cons, hc]

theorem payAll_termRemaining (calls : List PaymentCall) (l : Loan) :
    (payAll calls l).termRemaining = l.termRemaining - (calls.length : Int) := by
  induction calls generalizing l with
  | nil => simp [payAll]
  | cons c cs ih =>
    simp only [payAll, List.foldl_cons] at ih ⊢
    rw [ih, applyPaymentTo_termRemaining]
    simp only [List.length_cons]
    push_cast
    ring

theorem payAll_payments_length (calls : List PaymentCall) (l : Loan) :
    (payAll calls l).payments.length = l.payments.length + calls.length := by
  induction calls generalizing l with
  | nil => simp [payAll]
  | cons c cs ih =>
    simp only [payAll, List.foldl_cons] at ih ⊢
    rw [ih, applyPaymentTo_payments]
    simp only [List.length_append, List.length_cons, List.length_nil]
    omega

theorem payAll_status (calls : List PaymentCall) (l : Loan) :
    (payAll calls l).status
      = if calls ≠ [] ∧ l.termRemaining - (calls.length : Int) ≤ 0 then "completed"
        else l.status := by
  induction calls generalizing l with
  | nil => simp [payAll]
  | cons c cs ih =>
    simp only [payAll, List.foldl_cons] at ih ⊢
    rw [ih, applyPaymentTo_termRemaining, applyPaymentTo_status]
    simp only [List.length_cons]
    push_cast
    by_cases h1 : cs = []
    · subst h1
      simp
    · have hlen : 0 < cs.length := List.length_pos.mpr h1
      have hlen' : (0 : Int) < (cs.length : Int) := by exact_mod_cast hlen
      by_cases h2 : l.termRemaining - 1 - (cs.length : Int) ≤ 0
      · have h3 : l.termRemaining - ((cs.length : Int) + 1) ≤ 0 := by omega
        simp [h1, h2, h3]
      · have h3 : ¬ l.termRemaining - ((cs.length : Int) + 1) ≤ 0 := by omega
        have h4 : ¬ l.termRemaining - 1 ≤ 0 := by omega
        simp [h1, h2, h3, h4]

theorem find?_append_last (pre : List Loan) (l : Loan) (loanId : String)
    (hpre : ∀ x ∈ pre, x.id ≠ loanId) (hl : l.id = loanId) :
    (pre ++ [l]).find? (fun x => x.id == loanId) = some l := by
  induction pre with
  | nil => simp [hl]
  | cons y ys ih =>
    have hy : y.id ≠ loanId := hpre y (List.mem_cons_self y ys)
    have hys : ∀ z ∈ ys, z.id ≠ loanId := fun z hz => hpre z (List.mem_cons_of_mem y hz)
    have := ih hys
    simpa [List.find?_cons, hy] using this

/-- After `createLoan` on a store whose loan ids stay pairwise distinct, a
sequence of `makePayment` calls leaves `getLoanDetails` of the new id equal to
the created loan with the calls naming that id applied to it. -/
theorem getLoanDetails_after_payments (s : Store) (g : LoanStamp) (userId transactionId : String)
    (amount interestRate : ℚ) (term : Int)
    (hids : ((createLoan s g userId transactionId amount interestRate term).2.loans.map
      Loan.id).Nodup)
    (calls : List PaymentCall) :
    getLoanDetails (makePayments (createLoan s g userId transactionId amount interestRate term).2
        calls) g.id
      = some (payAll (calls.filter (fun c => c.loanId == g.id))
          (createLoan s g userId transactionId amount interestRate term).1) := by
  have hloans : (createLoan s g userId transactionId amount interestRate term).2.loans
      = s.loans ++ [(createLoan s g userId transactionId amount interestRate term).1] := rfl
  have hid : (createLoan s g userId transactionId amount interestRate term).1.id = g.id := rfl
  rw [hloans, List.map_append, List.nodup_append] at hids
  have hpre : ∀ x ∈ s.loans,
      x.id ≠ (createLoan s g userId transactionId amount interestRate term).1.id := by
    intro x hx hxid
    exact hids.2.2 (List.mem_map_of_mem Loan.id hx) (by simp [hxid])
  obtain ⟨pre', h', hpre'⟩ := foldl_payStep_append_last calls s.loans _ hpre
  rw [hid] at h' hpre'
  unfold getLoanDetails getAllLoans
  rw [makePayments_loans, hloans, h']
  exact find?_append_last pre' _ g.id hpre' (by rw [payAll_id, hid])

/-! ## Loan creation -/

/-- C2: for every term `T ≥ 1` (and every principal and interest rate, in
particular the non-negative ones) the loan returned by `createLoan` is the one
appended to the stored loans, its `totalAmount` is `principal * (1 + interestRate)`,
its `monthlyPayment` is a finite number with `monthlyPayment * T = totalAmount`,
and `originalAmount = principal`, `termRemaining = T`, `status = 'active'`,
`payments = []`. -/
theorem createLoan_amortization (s : Store) (g : LoanStamp) (userId transactionId : String)
    (principal interestRate : ℚ) (T : Int) (hT : 1 ≤ T) :
    (createLoan s g userId transactionId principal interestRate T).2.loans
        = s.loans ++ [(createLoan s g userId transactionId principal interestRate T).1]
      ∧ (createLoan s g userId transactionId principal interestRate T).1.totalAmount
        = principal * (1 + interestRate)
      ∧ (∃ m : ℚ,
          (createLoan s g userId transactionId principal interestRate T).1.monthlyPayment = some m
            ∧ m * (T : ℚ)
              = (createLoan s g userId transactionId principal interestRate T).1.totalAmount)
      ∧ (createLoan s g userId transactionId principal interestRate T).1.originalAmount = principal
      ∧ (createLoan s g userId transactionId principal interestRate T).1.termRemaining = T
      ∧ (createLoan s g userId transactionId principal interestRate T).1.status = "active"
      ∧ (createLoan s g userId transactionId principal interestRate T).1.payments = [] := by
  have hT0 : T ≠ 0 := by omega
  have hTq : (T : ℚ) ≠ 0 := by exact_mod_cast hT0
  refine ⟨rfl, ?_, ?_, rfl, rfl, rfl, rfl⟩
  · simp only [createLoan]
    ring
  · refine ⟨(principal + principal * interestRate) / (T : ℚ), ?_, ?_⟩
    · simp [createLoan, jsDiv, hT0]
    · simp only [createLoan]
      field_simp

/-- Instance of C2 at principal 1000, rate 1/10, term 12 on the empty store. -/
theorem createLoan_amortization_witness :
    (1 : Int) ≤ 12
      ∧ (createLoan emptyStore ⟨"id_1_loan", "d0", "d1"⟩ "u1" "id_0_tx" 1000 (1/10) 12).1.totalAmount
        = 1000 * (1 + 1/10)
      ∧ (createLoan emptyStore ⟨"id_1_loan", "d0", "d1"⟩ "u1" "id_0_tx" 1000 (1/10) 12).1.termRemaining
        = 12 :=
  ⟨by decide,
   (createLoan_amortization emptyStore ⟨"id_1_loan", "d0", "d1"⟩ "u1" "id_0_tx" 1000 (1/10) 12
      (by decide)).2.1,
   (createLoan_amortization emptyStore ⟨"id_1_loan", "d0", "d1"⟩ "u1" "id_0_tx" 1000 (1/10) 12
      (by decide)).2.2.2.2.1⟩

/-- C9 as stated fails: `createLoan` with `term = 0` on the empty store does
add a loan (with `term = 0`, status `'active'` and a non-finite monthly
payment). -/
theorem createLoan_zero_term_adds_loan :
    emptyStore.loans = []
      ∧ (createLoan emptyStore ⟨"id_1_loan", "d0", "d1"⟩ "u1" "id_0_tx" 1000 (1/10) 0).2.loans
        = [(createLoan emptyStore ⟨"id_1_loan", "d0", "d1"⟩ "u1" "id_0_tx" 1000 (1/10) 0).1]
      ∧ (createLoan emptyStore ⟨"id_1_loan", "d0", "d1"⟩ "u1" "id_0_tx" 1000 (1/10) 0).1.term = 0
      ∧ (createLoan emptyStore ⟨"id_1_loan", "d0", "d1"⟩ "u1" "id_0_tx" 1000 (1/10) 0).1.status
        = "active"
      ∧ (createLoan emptyStore ⟨"id_1_loan", "d0", "d1"⟩ "u1" "id_0_tx" 1000 (1/10) 0).1.monthlyPayment
        = none := by
  refine ⟨rfl, rfl, rfl, rfl, ?_⟩
  simp [createLoan, jsDiv]

/-- C9, amended: `createLoan` performs no check on `term`.  Called with
`term ≤ 0` it appends exactly one loan, whose `term` and `termRemaining` are the
given term (so `termRemaining ≤ 0`) and whose status is `'active'`; the division
`totalAmount / term` is carried out, giving a non-finite value for `term = 0` and the (finite) quotient
for `term < 0`. -/
theorem createLoan_nonpositive_term (s : Store) (g : LoanStamp) (userId transactionId : String)
    (amount interestRate : ℚ) (term : Int) (hterm : term ≤ 0) :
    (createLoan s g userId transactionId amount interestRate term).2.loans
        = s.loans ++ [(createLoan s g userId transactionId amount interestRate term).1]
      ∧ (createLoan s g userId transactionId amount interestRate term).2.loans.length
        = s.loans.length + 1
      ∧ (createLoan s g userId transactionId amount interestRate term).1.term = term
      ∧ (createLoan s g userId transactionId amount interestRate term).1.termRemaining = term
      ∧ (createLoan s g userId transactionId amount interestRate term).1.termRemaining ≤ 0
      ∧ (createLoan s g userId transactionId amount interestRate term).1.status = "active"
      ∧ (createLoan s g userId transactionId amount interestRate term).1.monthlyPayment
        = if term = 0 then none else some ((amount + amount * interestRate) / (term : ℚ)) := by
  refine ⟨rfl, ?_, rfl, rfl, hterm, rfl, ?_⟩
  · simp [createLoan, getAllLoans]
  · simp [createLoan, jsDiv]

/-- Instance of the amended C9 at term `-3`. -/
theorem createLoan_nonpositive_term_witness :
    (-3 : Int) ≤ 0
      ∧ (createLoan emptyStore ⟨"id_1_loan", "d0", "d1"⟩ "u1" "id_0_tx" 900 0 (-3)).2.loans.length
        = emptyStore.loans.length + 1
      ∧ (createLoan emptyStore ⟨"id_1_loan", "d0", "d1"⟩ "u1" "id_0_tx" 900 0 (-3)).1.termRemaining
        = -3 :=
  ⟨by decide,
   (createLoan_nonpositive_term emptyStore ⟨"id_1_loan", "d0", "d1"⟩ "u1" "id_0_tx" 900 0 (-3)
      (by decide)).2.1,
   (createLoan_nonpositive_term emptyStore ⟨"id_1_loan", "d0", "d1"⟩ "u1" "id_0_tx" 900 0 (-3)
      (by decide)).2.2.2.1⟩

/-! ## Recording a transaction -/

/-- C3 fails on the code: `processTransaction` writes back only the caller's
own transactions (the result of `getTransactions(userId)`) under the shared
key.  With one stored transaction of user `"u2"`, recording a purchase of user
`"u1"` leaves a stored collection that no longer contains the transaction of
`"u2"`. -/
theorem processTransaction_drops_other_users :
    (⟨"id_0_aaaaaaaaa", "u2", "wrap", 500, "full", 0, 0, "pending", "d0", none⟩ : Transaction)
        ∈ (⟨[], [⟨"id_0_aaaaaaaaa", "u2", "wrap", 500, "full", 0, 0, "pending", "d0", none⟩], []⟩
            : Store).transactions
      ∧ (⟨"id_0_aaaaaaaaa", "u2", "wrap", 500, "full", 0, 0, "pending", "d0", none⟩ : Transaction)
        ∉ (processTransaction
            ⟨[], [⟨"id_0_aaaaaaaaa", "u2", "wrap", 500, "full", 0, 0, "pending", "d0", none⟩], []⟩
            "id_1_bbbbbbbbb" "d1" ⟨"id_2_ccccccccc", "d1", "d2"⟩ "u1"
            ⟨some "tint", none, 300, "full", 0, 0, none⟩).2.transactions
      ∧ (processTransaction
            ⟨[], [⟨"id_0_aaaaaaaaa", "u2", "wrap", 500, "full", 0, 0, "pending", "d0", none⟩], []⟩
            "id_1_bbbbbbbbb" "d1" ⟨"id_2_ccccccccc", "d1", "d2"⟩ "u1"
            ⟨some "tint", none, 300, "full", 0, 0, none⟩).2.transactions
        = [⟨"id_1_bbbbbbbbb", "u1", "tint", 300, "full", 0, 0, "pending", "d1", none⟩] := by
  decide

/-- C4: with `method = 'installment'` and `term = T ≥ 1`, `processTransaction`
returns a transaction of method `'installment'` and the stored loans afterwards
are the previous ones followed by exactly one new loan, which carries the
returned transaction's id, the caller's `userId`, `originalAmount = a`,
`totalAmount = a + a * r` and `monthlyPayment = (a + a * r) / T`. -/
theorem processTransaction_installment (s : Store) (txId txDate : String) (g : LoanStamp)
    (userId : String) (details : Details)
    (hmethod : details.method = "installment") (hterm : 1 ≤ details.term) :
    (processTransaction s txId txDate g userId details).1.method = "installment"
      ∧ ∃ loan : Loan,
          (processTransaction s txId txDate g userId details).2.loans = s.loans ++ [loan]
            ∧ loan.transactionId = (processTransaction s txId txDate g userId details).1.id
            ∧ loan.userId = userId
            ∧ loan.originalAmount = details.amount
            ∧ loan.totalAmount = details.amount + details.amount * details.interestRate
            ∧ loan.monthlyPayment
              = some ((details.amount + details.amount * details.interestRate)
                  / (details.term : ℚ)) := by
  have hnb : details.method ≠ "bank" := by
    rw [hmethod]
    decide
  have hT0 : details.term ≠ 0 := by omega
  refine ⟨?_, ?_⟩
  · simp [processTransaction, hnb, hmethod]
  · refine ⟨(createLoan { s with transactions := getTransactions s userId ++
        [(processTransaction s txId txDate g userId details).1] } g userId txId
        details.amount details.interestRate details.term).1, ?_, ?_, rfl, rfl, rfl, ?_⟩
    · simp [processTransaction, hnb, hmethod, createLoan, getAllLoans]
    · simp [processTransaction, hnb, createLoan]
    · simp [createLoan, jsDiv, hT0]

/-- Instance of C4 at amount 1000, rate 1/10, term 12: the linked loan has
`totalAmount = 1100` and `monthlyPayment = 1100 / 12`. -/
theorem processTransaction_installment_witness :
    ∃ loan : Loan,
      (processTransaction emptyStore "id_1_bbbbbbbbb" "d1" ⟨"id_2_ccccccccc", "d1", "d2"⟩ "u1"
          ⟨some "tint", none, 1000, "installment", 12, 1/10, none⟩).2.loans = [loan]
        ∧ loan.transactionId = "id_1_bbbbbbbbb"
        ∧ loan.originalAmount = 1000
        ∧ loan.totalAmount = 1100
        ∧ loan.monthlyPayment = some (1100 / 12) := by
  obtain ⟨_, loan, h1, h2, _, h4, h5, h6⟩ :=
    processTransaction_installment emptyStore "id_1_bbbbbbbbb" "d1"
      ⟨"id_2_ccccccccc", "d1", "d2"⟩ "u1"
      ⟨some "tint", none, 1000, "installment", 12, 1/10, none⟩ rfl (by decide)
  refine ⟨loan, ?_, ?_, h4, ?_, ?_⟩
  · simpa [emptyStore] using h1
  · rw [h2]
    simp [processTransaction]
  · rw [h5]
    norm_num
  · rw [h6]
    norm_num

/-- C10: the transaction returned by `processTransaction` is the last stored
one and carries the generated id; it has a `bankReference` exactly when
`details.method = 'bank'`, and then the reference is the code units of `BLC-`
(66, 76, 67, 45) followed by the last 8 code units of its own id (all of them
when the id is shorter); for an id without characters beyond `U+FFFF`, as
`generateId` makes them, these are the codes of its last 8 characters. -/
theorem processTransaction_bankReference (s : Store) (txId txDate : String) (g : LoanStamp)
    (userId : String) (details : Details) :
    (processTransaction s txId txDate g userId details).2.transactions.getLast?
        = some (processTransaction s txId txDate g userId details).1
      ∧ (processTransaction s txId txDate g userId details).1.id = txId
      ∧ ((processTransaction s txId txDate g userId details).1.bankReference.isSome = true
          ↔ details.method = "bank")
      ∧ ∃ last8 : List Int,
          List.IsSuffix last8 (txId.data.flatMap utf16Units)
            ∧ last8.length = min 8 (txId.data.flatMap utf16Units).length
            ∧ ((∀ c ∈ txId.data, c.toNat < 65536) →
                last8 = (txId.data.drop (txId.data.length - 8)).map (fun c => (c.toNat : Int)))
            ∧ (processTransaction s txId txDate g userId details).1.bankReference
              = if details.method = "bank" then some ([66, 76, 67, 45] ++ last8) else none := by
  have hid : (processTransaction s txId txDate g userId details).1.id = txId := by
    by_cases hb : details.method = "bank"
    · simp [processTransaction, hb]
    · simp [processTransaction, hb]
  have hlast : (processTransaction s txId txDate g userId details).2.transactions.getLast?
      = some (processTransaction s txId txDate g userId details).1 := by
    by_cases hb : details.method = "bank"
    · have hni : details.method ≠ "installment" := by
        rw [hb]
        decide
      simp [processTransaction, hb]
    · by_cases hi : details.method = "installment"
      · simp [processTransaction, hb, hi, createLoan]
      · simp [processTransaction, hb, hi]
  have href : (processTransaction s txId txDate g userId details).1.bankReference
      = if details.method = "bank" then some ([66, 76, 67, 45] ++ sliceLast 8 (utf16 txId))
        else none := by
    by_cases hb : details.method = "bank"
    · simp only [processTransaction, hb, if_true, generateBankReference]
      rw [utf16_reference_tag]
    · simp [processTransaction, hb]
  refine ⟨hlast, hid, ?_, sliceLast 8 (utf16 txId), sliceLast_suffix 8 (utf16 txId),
    sliceLast_length 8 (utf16 txId), sliceLast_utf16_of_bmp 8 txId, href⟩
  rw [href]
  by_cases hb : details.method = "bank"
  · simp [hb]
  · simp [hb]

/-- Evaluation of `processTransaction` for a bank transfer with an id of the
shape `generateId` produces: the reference reads `BLC-bcdefghi`. -/
theorem processTransaction_bankReference_example :
    (processTransaction emptyStore "id_1700000000000_abcdefghi" "d1"
        ⟨"id_2_ccccccccc", "d1", "d2"⟩ "u1"
        ⟨some "tint", none, 300, "bank", 0, 0, none⟩).1.bankReference
      = some ("BLC-bcdefghi".data.map (fun c => (c.toNat : Int))) := by
  decide

/-! ## Paying a loan -/

/-- C5: `makePayment` returns `false` exactly when no stored loan has the
given id, and in that case the store (in particular the loans collection) is
the one before the call. -/
theorem makePayment_false_iff (s : Store) (date loanId : String) (amount : ℚ) :
    ((makePayment s date loanId amount).1 = false ↔ ∀ l ∈ s.loans, l.id ≠ loanId)
      ∧ ((makePayment s date loanId amount).1 = false →
          (makePayment s date loanId amount).2.loans = s.loans
            ∧ (makePayment s date loanId amount).2 = s) := by
  cases hfind : s.loans.find? (fun l => l.id == loanId) with
  | none =>
    have hall := (find?_eq_none_of_ids s.loans loanId).mp hfind
    rw [makePayment_of_find_none s date loanId amount hfind]
    exact ⟨⟨fun _ => hall, fun _ => rfl⟩, fun _ => ⟨rfl, rfl⟩⟩
  | some l =>
    have hmem : l ∈ s.loans := List.mem_of_find?_eq_some hfind
    have hid : l.id = loanId := by
      have := List.find?_some hfind
      simpa using this
    rw [makePayment_of_find_some s date loanId amount l hfind]
    refine ⟨⟨fun h => ?_, fun hall => ?_⟩, fun h => ?_⟩
    · exact absurd h (by simp)
    · exact absurd hid (hall l hmem)
    · exact absurd h (by simp)

/-- C1: in a store whose loan ids are pairwise distinct, let a loan be created
by `createLoan` with term `T ≥ 1` and let `k` successive `makePayment` calls be
made on its id, with arbitrary amounts.  If `k < T`
the stored loan has `termRemaining = T - k`, `k` payments and status `'active'`;
if `k = T` it has `termRemaining = 0` and status `'completed'`. -/
theorem makePayment_schedule (s : Store) (g : LoanStamp) (userId transactionId : String)
    (amount interestRate : ℚ) (T : Int) (hT : 1 ≤ T)
    (hids : ((createLoan s g userId transactionId amount interestRate T).2.loans.map
      Loan.id).Nodup)
    (calls : List PaymentCall) (hcalls : ∀ c ∈ calls, c.loanId = g.id) :
    ∃ l : Loan,
      getLoanDetails (makePayments (createLoan s g userId transactionId amount interestRate T).2
          calls) g.id = some l
        ∧ ((calls.length : Int) < T →
            l.termRemaining = T - (calls.length : Int)
              ∧ l.payments.length = calls.length
              ∧ l.status = "active")
        ∧ ((calls.length : Int) = T → l.termRemaining = 0 ∧ l.status = "completed") := by
  have hfilter : calls.filter (fun c => c.loanId == g.id) = calls := by
    apply List.filter_eq_self.mpr
    intro c hc
    simpa using hcalls c hc
  refine ⟨_, getLoanDetails_after_payments s g userId transactionId amount interestRate T hids
    calls, ?_, ?_⟩
  · intro hk
    rw [hfilter]
    refine ⟨?_, ?_, ?_⟩
    · rw [payAll_termRemaining]
      rfl
    · rw [payAll_payments_length]
      simp [createLoan]
    · rw [payAll_status]
      have h1 : (createLoan s g userId transactionId amount interestRate T).1.termRemaining = T :=
        rfl
      have h2 : ¬ (T - (calls.length : Int) ≤ 0) := by omega
      rw [h1, if_neg (fun h => h2 h.2)]
      rfl
  · intro hk
    rw [hfilter]
    have h1 : (createLoan s g userId transactionId amount interestRate T).1.termRemaining = T :=
      rfl
    refine ⟨?_, ?_⟩
    · rw [payAll_termRemaining, h1]
      omega
    · rw [payAll_status, h1]
      have hne : calls ≠ [] := by
        intro h
        rw [h] at hk
        simp at hk
        omega
      rw [if_pos ⟨hne, by omega⟩]

/-- Instance of C1: a loan of term 2 on the empty store, after one payment
(of an amount unrelated to the schedule). -/
theorem makePayment_schedule_witness :
    ∃ l : Loan,
      getLoanDetails (makePayments
          (createLoan emptyStore ⟨"id_1_loan", "d0", "d1"⟩ "u1" "id_0_tx" 1000 (1/10) 2).2
          [⟨"d2", "id_1_loan", 7⟩]) "id_1_loan" = some l
        ∧ l.termRemaining = 1 ∧ l.payments.length = 1 ∧ l.status = "active" := by
  obtain ⟨l, h, hlt, _⟩ :=
    makePayment_schedule emptyStore ⟨"id_1_loan", "d0", "d1"⟩ "u1" "id_0_tx" 1000 (1/10) 2
      (by decide) (by decide) [⟨"d2", "id_1_loan", 7⟩] (by decide)
  have h3 := hlt (by decide)
  exact ⟨l, h, by simpa using h3.1, by simpa using h3.2.1, h3.2.2⟩

/-- C6 as stated fails: a loan created with term 1 on the empty store has
`termRemaining = -1` after two `makePayment` calls on it. -/
theorem makePayment_termRemaining_negative :
    ∃ l : Loan,
      getLoanDetails (makePayments
          (createLoan emptyStore ⟨"id_1_loan", "d0", "d1"⟩ "u1" "id_0_tx" 1000 (1/10) 1).2
          [⟨"d2", "id_1_loan", 1100⟩, ⟨"d3", "id_1_loan", 1100⟩]) "id_1_loan" = some l
        ∧ l.termRemaining = -1
        ∧ ¬ (0 ≤ l.termRemaining) := by
  refine ⟨_, rfl, ?_, ?_⟩ <;> decide

/-- C6, amended: in a store whose loan ids are pairwise distinct, after
`createLoan` with term `T` (in particular `T ≥ 1`) and any finite sequence of
`makePayment` calls, the stored loan's `termRemaining` is `T` minus the number
of calls of the sequence made on its id; it is `≥ 0` exactly when at most `T`
such calls were made. -/
theorem makePayment_termRemaining_count (s : Store) (g : LoanStamp)
    (userId transactionId : String) (amount interestRate : ℚ) (T : Int)
    (hids : ((createLoan s g userId transactionId amount interestRate T).2.loans.map
      Loan.id).Nodup)
    (calls : List PaymentCall) :
    ∃ l : Loan,
      getLoanDetails (makePayments (createLoan s g userId transactionId amount interestRate T).2
          calls) g.id = some l
        ∧ l.termRemaining = T - ((calls.filter (fun c => c.loanId == g.id)).length : Int)
        ∧ (0 ≤ l.termRemaining
            ↔ ((calls.filter (fun c => c.loanId == g.id)).length : Int) ≤ T) := by
  have htr : (payAll (calls.filter (fun c => c.loanId == g.id))
      (createLoan s g userId transactionId amount interestRate T).1).termRemaining
      = T - ((calls.filter (fun c => c.loanId == g.id)).length : Int) := by
    rw [payAll_termRemaining]
    rfl
  refine ⟨_, getLoanDetails_after_payments s g userId transactionId amount interestRate T hids
    calls, htr, ?_⟩
  rw [htr]
  omega

/-- Instance of the amended C6: term 3, two calls on the loan and one on an
unknown id leave `termRemaining = 1`. -/
theorem makePayment_termRemaining_count_witness :
    ∃ l : Loan,
      getLoanDetails (makePayments
          (createLoan emptyStore ⟨"id_1_loan", "d0", "d1"⟩ "u1" "id_0_tx" 1000 (1/10) 3).2
          [⟨"d2", "id_1_loan", 5⟩, ⟨"d3", "id_9_none", 5⟩, ⟨"d4", "id_1_loan", 0⟩])
          "id_1_loan" = some l
        ∧ l.termRemaining = 1 := by
  obtain ⟨l, h, htr, _⟩ :=
    makePayment_termRemaining_count emptyStore ⟨"id_1_loan", "d0", "d1"⟩ "u1" "id_0_tx" 1000
      (1/10) 3 (by decide)
      [⟨"d2", "id_1_loan", 5⟩, ⟨"d3", "id_9_none", 5⟩, ⟨"d4", "id_1_loan", 0⟩]
  refine ⟨l, h, ?_⟩
  rw [htr]
  decide

/-- C7: after `createLoan` (any term) and any finite sequence of `makePayment`
calls (any ids, any amounts), the loan stored at the position where
`createLoan` put it is still the created loan (same id and term) and satisfies
`payments.length = term - termRemaining`. -/
theorem payments_length_eq_term_sub_remaining (s : Store) (g : LoanStamp)
    (userId transactionId : String) (amount interestRate : ℚ) (term : Int)
    (calls : List PaymentCall) :
    ∃ l : Loan,
      (makePayments (createLoan s g userId transactionId amount interestRate term).2
          calls).loans[s.loans.length]? = some l
        ∧ l.id = g.id
        ∧ l.term = term
        ∧ (l.payments.length : Int) = l.term - l.termRemaining := by
  have h0 : (createLoan s g userId transactionId amount interestRate term).2.loans[s.loans.length]?
      = some (createLoan s g userId transactionId amount interestRate term).1 := by
    simp [createLoan, getAllLoans]
  obtain ⟨l, hl, hP⟩ := foldl_payStep_preserves
    (fun l => l.id = g.id ∧ l.term = term ∧ (l.payments.length : Int) = l.term - l.termRemaining)
    (by
      intro date amt l h
      refine ⟨?_, ?_, ?_⟩
      · rw [applyPaymentTo_id]
        exact h.1
      · rw [applyPaymentTo_term]
        exact h.2.1
      · rw [applyPaymentTo_payments, applyPaymentTo_term, applyPaymentTo_termRemaining]
        have := h.2.2
        simp only [List.length_append, List.length_cons, List.length_nil]
        push_cast
        omega)
    calls _ s.loans.length _ h0 ⟨rfl, rfl, by simp [createLoan]⟩
  rw [← makePayments_loans] at hl
  exact ⟨l, hl, hP⟩

/-- C8: after `createLoan` with term `T ≥ 1` and any finite sequence of
`makePayment` calls, the created loan (at its position in the stored array) has
status `'completed'` exactly when `termRemaining ≤ 0` and status `'active'`
exactly when `termRemaining > 0`; and if it is `'completed'` it is still
`'completed'` after any further sequence of `makePayment` calls. -/
theorem status_completed_iff (s : Store) (g : LoanStamp)
    (userId transactionId : String) (amount interestRate : ℚ) (T : Int) (hT : 1 ≤ T)
    (calls later : List PaymentCall) :
    ∃ l l' : Loan,
      (makePayments (createLoan s g userId transactionId amount interestRate T).2
          calls).loans[s.loans.length]? = some l
        ∧ (makePayments
            (makePayments (createLoan s g userId transactionId amount interestRate T).2 calls)
            later).loans[s.loans.length]? = some l'
        ∧ l.id = g.id ∧ l'.id = g.id
        ∧ (l.status = "completed" ↔ l.termRemaining ≤ 0)
        ∧ (l.status = "active" ↔ 0 < l.termRemaining)
        ∧ (l.status = "completed" → l'.status = "completed") := by
  have h0 : (createLoan s g userId transactionId amount interestRate T).2.loans[s.loans.length]?
      = some (createLoan s g userId transactionId amount interestRate T).1 := by
    simp [createLoan, getAllLoans]
  obtain ⟨l, hl, hP⟩ := foldl_payStep_preserves
    (fun l => l.id = g.id ∧ (l.status = "completed" ↔ l.termRemaining ≤ 0)
      ∧ (l.status = "active" ↔ 0 < l.termRemaining))
    (by
      intro date amt l h
      obtain ⟨hid, hc, ha⟩ := h
      rw [applyPaymentTo_id, applyPaymentTo_status, applyPaymentTo_termRemaining]
      refine ⟨hid, ?_, ?_⟩
      · by_cases hle : l.termRemaining - 1 ≤ 0
        · simp [hle]
        · rw [if_neg hle]
          constructor
          · intro hcomp
            have := hc.mp hcomp
            omega
          · intro h
            exact absurd h hle
      · by_cases hle : l.termRemaining - 1 ≤ 0
        · rw [if_pos hle]
          constructor
          · intro h
            exact absurd h (by decide)
          · intro h
            omega
        · rw [if_neg hle]
          constructor
          · intro _
            omega
          · intro _
            exact ha.mpr (by omega))
    calls _ s.loans.length _ h0
    ⟨rfl, by
      constructor
      · intro h
        exact absurd h (by simp [createLoan])
      · intro h
        have : T ≤ 0 := h
        omega,
     by
      constructor
      · intro _
        show 0 < T
        omega
      · intro _
        rfl⟩
  rw [← makePayments_loans] at hl
  obtain ⟨l', hl', hP'⟩ := foldl_payStep_preserves
    (fun x => x.id = g.id ∧ (l.status = "completed" → x.status = "completed"))
    (by
      intro date amt x h
      rw [applyPaymentTo_id, applyPaymentTo_status]
      refine ⟨h.1, fun hc => ?_⟩
      by_cases hle : x.termRemaining - 1 ≤ 0
      · rw [if_pos hle]
      · rw [if_neg hle]
        exact h.2 hc)
    later _ s.loans.length l hl ⟨hP.1, fun h => h⟩
  rw [← makePayments_loans] at hl'
  exact ⟨l, l', hl, hl', hP.1, hP'.1, hP.2.1, hP.2.2, hP'.2⟩

/-- Instance of C8: a loan of term 1 is `'completed'` after one payment and
stays so after another. -/
theorem status_completed_iff_witness :
    ∃ l l' : Loan,
      (makePayments
          (createLoan emptyStore ⟨"id_1_loan", "d0", "d1"⟩ "u1" "id_0_tx" 1000 (1/10) 1).2
          [⟨"d2", "id_1_loan", 1100⟩]).loans[0]? = some l
        ∧ (makePayments (makePayments
            (createLoan emptyStore ⟨"id_1_loan", "d0", "d1"⟩ "u1" "id_0_tx" 1000 (1/10) 1).2
            [⟨"d2", "id_1_loan", 1100⟩]) [⟨"d3", "id_1_loan", 1⟩]).loans[0]? = some l'
        ∧ (l.status = "completed" ↔ l.termRemaining ≤ 0)
        ∧ (l.status = "completed" → l'.status = "completed") := by
  obtain ⟨l, l', h1, h2, _, _, h5, _, h7⟩ :=
    status_completed_iff emptyStore ⟨"id_1_loan", "d0", "d1"⟩ "u1" "id_0_tx" 1000 (1/10) 1
      (by decide) [⟨"d2", "id_1_loan", 1100⟩] [⟨"d3", "id_1_loan", 1⟩]
  exact ⟨l, l', h1, h2, h5, h7⟩

/-! ## Further facts about the helpers -/

theorem modifyFirst_split {α : Type} (p : α → Bool) (f : α → α) (xs : List α)
    (h : ∃ x ∈ xs, p x = true) :
    ∃ pre x post, xs = pre ++ x :: post ∧ (∀ y ∈ pre, p y = false) ∧ p x = true
      ∧ modifyFirst p f xs = pre ++ f x :: post := by
  induction xs with
  | nil =>
    obtain ⟨x, hx, _⟩ := h
    simp at hx
  | cons y ys ih =>
    by_cases hy : p y = true
    · exact ⟨[], y, ys, rfl, by simp, hy, by simp [modifyFirst, hy]⟩
    · have hys : ∃ x ∈ ys, p x = true := by
        obtain ⟨x, hx, hpx⟩ := h
        rcases List.mem_cons.mp hx with hxy | hxy
        · rw [hxy] at hpx
          exact absurd hpx hy
        · exact ⟨x, hxy, hpx⟩
      obtain ⟨pre, x, post, h1, h2, h3, h4⟩ := ih hys
      refine ⟨y :: pre, x, post, by rw [h1]; rfl, ?_, h3, ?_⟩
      · intro z hz
        rcases List.mem_cons.mp hz with hzy | hzy
        · rw [hzy]
          simpa using hy
        · exact h2 z hzy
      · simp [modifyFirst, hy, h4]

theorem modifyFirst_forall {α : Type} (p : α → Bool) (f : α → α) (P : α → Prop)
    (hf : ∀ x, P x → P (f x)) (xs : List α) (h : ∀ x ∈ xs, P x) :
    ∀ x ∈ modifyFirst p f xs, P x := by
  induction xs with
  | nil => simp [modifyFirst]
  | cons y ys ih =>
    have hy : P y := h y (List.mem_cons_self y ys)
    have hys : ∀ z ∈ ys, P z := fun z hz => h z (List.mem_cons_of_mem y hz)
    by_cases hpy : p y = true
    · intro x hx
      simp only [modifyFirst, hpy, if_true] at hx
      rcases List.mem_cons.mp hx with hxy | hxy
      · rw [hxy]
        exact hf y hy
      · exact hys x hxy
    · intro x hx
      simp only [modifyFirst, hpy] at hx
      rcases List.mem_cons.mp hx with hxy | hxy
      · rw [hxy]
        exact hy
      · exact ih hys x hxy

theorem foldl_add_eq_sum {α : Type} (f : α → ℚ) (xs : List α) (init : ℚ) :
    xs.foldl (fun sum x => sum + f x) init = init + (xs.map f).sum := by
  induction xs generalizing init with
  | nil => simp
  | cons y ys ih =>
    simp only [List.foldl_cons, List.map_cons, List.sum_cons]
    rw [ih]
    ring

theorem applyPaymentTo_monthlyPayment (date : String) (amount : ℚ) (l : Loan) :
    (applyPaymentTo date amount l).monthlyPayment = l.monthlyPayment := by
  unfold applyPaymentTo
  dsimp only
  split <;> rfl

theorem applyPaymentTo_totalAmount (date : String) (amount : ℚ) (l : Loan) :
    (applyPaymentTo date amount l).totalAmount = l.totalAmount := by
  unfold applyPaymentTo
  dsimp only
  split <;> rfl

theorem applyPaymentTo_eq (date : String) (amount : ℚ) (l : Loan) :
    applyPaymentTo date amount l
      = { l with
          payments := l.payments ++ [{ date := date, amount := amount }]
          termRemaining := l.termRemaining - 1
          status := if l.termRemaining - 1 ≤ 0 then "completed" else l.status } := by
  unfold applyPaymentTo
  dsimp only
  split <;> rfl

theorem exists_of_find?_some {α : Type} (p : α → Bool) (xs : List α) (x : α)
    (h : xs.find? p = some x) : ∃ y ∈ xs, p y = true :=
  ⟨x, List.mem_of_find?_eq_some h, List.find?_some h⟩

/-! ## Bank references -/

/-- C11: let `sx` and `sy` be the last-8-character suffixes of the ids `x`
and `y`, that is the suffixes of their code units of length 8 (of the whole
length for a shorter id).  Then `generateBankReference(x)` is the code units of
`BLC-` (66, 76, 67, 45) followed by `sx`, likewise for `y`; the two references
are equal exactly when `sx = sy`, so they differ whenever the suffixes differ.
For an id without characters beyond `U+FFFF` the suffix is the codes of its
last 8 characters. -/
theorem generateBankReference_eq_iff (x y : String) (sx sy : List Int)
    (hx : List.IsSuffix sx (x.data.flatMap utf16Units))
    (hxl : sx.length = min 8 (x.data.flatMap utf16Units).length)
    (hy : List.IsSuffix sy (y.data.flatMap utf16Units))
    (hyl : sy.length = min 8 (y.data.flatMap utf16Units).length) :
    (generateBankReference x = generateBankReference y ↔ sx = sy)
      ∧ (sx ≠ sy → generateBankReference x ≠ generateBankReference y)
      ∧ (sx = sy → generateBankReference x = generateBankReference y)
      ∧ generateBankReference x = [66, 76, 67, 45] ++ sx
      ∧ generateBankReference y = [66, 76, 67, 45] ++ sy
      ∧ ((∀ c ∈ x.data, c.toNat < 65536) →
          sx = (x.data.drop (x.data.length - 8)).map (fun c => (c.toNat : Int)))
      ∧ ((∀ c ∈ y.data, c.toNat < 65536) →
          sy = (y.data.drop (y.data.length - 8)).map (fun c => (c.toNat : Int))) := by
  have hsx : sx = sliceLast 8 (utf16 x) := eq_sliceLast_of_suffix 8 sx (utf16 x) hx hxl
  have hsy : sy = sliceLast 8 (utf16 y) := eq_sliceLast_of_suffix 8 sy (utf16 y) hy hyl
  have hrx : generateBankReference x = [66, 76, 67, 45] ++ sx := by
    unfold generateBankReference
    rw [utf16_reference_tag, hsx]
  have hry : generateBankReference y = [66, 76, 67, 45] ++ sy := by
    unfold generateBankReference
    rw [utf16_reference_tag, hsy]
  have hiff : generateBankReference x = generateBankReference y ↔ sx = sy := by
    rw [hrx, hry]
    exact ⟨fun h => List.append_cancel_left h, fun h => by rw [h]⟩
  refine ⟨hiff, fun hne h => hne (hiff.mp h), hiff.mpr, hrx, hry, ?_, ?_⟩
  · intro hbmp
    rw [hsx]
    exact sliceLast_utf16_of_bmp 8 x hbmp
  · intro hbmp
    rw [hsy]
    exact sliceLast_utf16_of_bmp 8 y hbmp

/-- Instance of C11: two ids that differ in their last character yield
different references. -/
theorem generateBankReference_eq_iff_witness :
    generateBankReference "id_1700000000000_abcdefghi"
      ≠ generateBankReference "id_1700000000000_abcdefghj" :=
  (generateBankReference_eq_iff "id_1700000000000_abcdefghi" "id_1700000000000_abcdefghj"
    ("bcdefghi".data.map (fun c => (c.toNat : Int)))
    ("bcdefghj".data.map (fun c => (c.toNat : Int)))
    (by decide) (by decide) (by decide) (by decide)).2.1 (by decide)

/-- Two ids of 8 characters whose first character lies beyond `U+FFFF`
(`U+1F200` and `U+1F600`, which share their second code unit) have 9 code
units each and the same last 8, so `slice(-8)` yields the same reference for
both. -/
theorem generateBankReference_cut_surrogate :
    generateBankReference (String.mk (Char.ofNat 127488 :: "abcdefg".data))
      = generateBankReference (String.mk (Char.ofNat 128512 :: "abcdefg".data)) := by
  decide

/-! ## Updating a transaction status -/

/-- C12: when no stored transaction has the given id,
`updateTransactionStatus` returns `false` and the store is unchanged; otherwise
it returns `true`, the first transaction with that id gets `status = newStatus`
with all its other fields kept, every other transaction and the order of the
collection are kept, and the loans (and users) are unchanged. -/
theorem updateTransactionStatus_frame (s : Store) (transactionId newStatus : String) :
    ((∀ t ∈ s.transactions, t.id ≠ transactionId) →
        updateTransactionStatus s transactionId newStatus = (false, s))
      ∧ ((∃ t ∈ s.transactions, t.id = transactionId) →
          (updateTransactionStatus s transactionId newStatus).1 = true
            ∧ (updateTransactionStatus s transactionId newStatus).2.loans = s.loans
            ∧ (updateTransactionStatus s transactionId newStatus).2.users = s.users
            ∧ ∃ pre t post,
                s.transactions = pre ++ t :: post
                  ∧ (∀ x ∈ pre, x.id ≠ transactionId)
                  ∧ t.id = transactionId
                  ∧ (updateTransactionStatus s transactionId newStatus).2.transactions
                    = pre ++ { t with status := newStatus } :: post) := by
  constructor
  · intro hall
    have hfind : s.transactions.find? (fun t => t.id == transactionId) = none := by
      simpa [List.find?_eq_none] using hall
    simp only [updateTransactionStatus, hfind]
  · intro hex
    have hex' : ∃ t ∈ s.transactions, (fun t : Transaction => t.id == transactionId) t = true := by
      obtain ⟨t, ht, hid⟩ := hex
      exact ⟨t, ht, by simpa using hid⟩
    have hfind : ∃ t0, s.transactions.find? (fun t => t.id == transactionId) = some t0 := by
      cases hf : s.transactions.find? (fun t => t.id == transactionId) with
      | some t0 => exact ⟨t0, rfl⟩
      | none =>
        obtain ⟨t, ht, hid⟩ := hex
        have := (List.find?_eq_none.mp hf) t ht
        simp [hid] at this
    obtain ⟨t0, ht0⟩ := hfind
    obtain ⟨pre, t, post, h1, h2, h3, h4⟩ := modifyFirst_split
      (fun t : Transaction => t.id == transactionId)
      (fun t => { t with status := newStatus }) s.transactions hex'
    have heq : updateTransactionStatus s transactionId newStatus
        = (true,
            { s with
              transactions := modifyFirst (fun t => t.id == transactionId)
                (fun t => { t with status := newStatus }) s.transactions }) := by
      simp only [updateTransactionStatus, ht0]
    rw [heq]
    refine ⟨rfl, rfl, rfl, pre, t, post, h1, ?_, by simpa using h3, h4⟩
    intro x hx
    simpa using h2 x hx

/-! ## Reports -/

/-- C13: `getAccountSummary(userId)` returns the sum of the amounts of the
user's transactions, their number, the number of the user's loans with status
`'active'`, the sum of `monthlyPayment * termRemaining` over those loans (a
stored `null` payment contributing `0`), and the last of the user's transactions
in storage order; for a user without transactions and loans all numbers are `0`
and `lastTransaction` is `null`. -/
theorem getAccountSummary_spec (s : Store) (userId : String) :
    (getAccountSummary s userId).totalSpent
        = ((s.transactions.filter (fun t => t.userId == userId)).map Transaction.amount).sum
      ∧ (getAccountSummary s userId).transactionCount
        = (s.transactions.filter (fun t => t.userId == userId)).length
      ∧ (getAccountSummary s userId).activeLoans
        = (s.loans.filter (fun l => l.userId == userId && l.status == "active")).length
      ∧ (getAccountSummary s userId).outstandingBalance
        = ((s.loans.filter (fun l => l.userId == userId && l.status == "active")).map
            (fun l => l.monthlyPayment.getD 0 * (l.termRemaining : ℚ))).sum
      ∧ (getAccountSummary s userId).lastTransaction
        = (s.transactions.filter (fun t => t.userId == userId)).getLast?
      ∧ ((∀ t ∈ s.transactions, t.userId ≠ userId) → (∀ l ∈ s.loans, l.userId ≠ userId) →
          getAccountSummary s userId
            = { totalSpent := 0, transactionCount := 0, activeLoans := 0,
                outstandingBalance := 0, lastTransaction := none }) := by
  refine ⟨?_, rfl, rfl, ?_, ?_, ?_⟩
  · simp only [getAccountSummary, getTransactions]
    rw [foldl_add_eq_sum Transaction.amount]
    simp
  · simp only [getAccountSummary, getActiveLoans]
    rw [foldl_add_eq_sum (fun l : Loan => nullToNumber l.monthlyPayment * (l.termRemaining : ℚ))]
    have hnull : (fun l : Loan => nullToNumber l.monthlyPayment * (l.termRemaining : ℚ))
        = (fun l : Loan => l.monthlyPayment.getD 0 * (l.termRemaining : ℚ)) := by
      funext l
      cases l.monthlyPayment <;> rfl
    rw [hnull]
    simp
  · simp only [getAccountSummary, getTransactions]
    rw [List.getLast?_eq_getElem?]
    split
    · rfl
    · rename_i h
      have h0 : (s.transactions.filter (fun t => t.userId == userId)).length = 0 := by omega
      rw [h0]
      have hnil := List.length_eq_zero.mp h0
      rw [hnil]
      rfl
  · intro ht hl
    have htx : s.transactions.filter (fun t => t.userId == userId) = [] := by
      rw [List.filter_eq_nil_iff]
      intro t htm
      simpa using ht t htm
    have hln : s.loans.filter (fun l => l.userId == userId && l.status == "active") = [] := by
      rw [List.filter_eq_nil_iff]
      intro l hlm
      have := hl l hlm
      simp [this]
    simp [getAccountSummary, getTransactions, getActiveLoans, htx, hln]

/-- Evaluation of `getAccountSummary` on a store with two transactions of
user `"u1"`, one of user `"u2"`, an active loan of `"u1"` with 11 payments of
275/3 left and a completed loan. -/
theorem getAccountSummary_example :
    getAccountSummary
        ⟨[],
          [⟨"id_0_tx", "u1", "wrap", 1000, "installment", 12, 1/10, "pending", "d0", none⟩,
           ⟨"id_1_tx", "u2", "tint", 500, "full", 0, 0, "pending", "d1", none⟩,
           ⟨"id_2_tx", "u1", "tint", 300, "full", 0, 0, "completed", "d2", none⟩],
          [⟨"id_3_loan", "u1", "id_0_tx", 1000, 1100, 1/10, some (275/3), 12, 11, "active", "d0",
             "d1", [⟨"d3", 90⟩]⟩,
           ⟨"id_4_loan", "u1", "id_9_tx", 200, 200, 0, some 200, 1, 0, "completed", "d0", "d1",
             [⟨"d3", 200⟩]⟩]⟩
        "u1"
      = { totalSpent := 1300, transactionCount := 2, activeLoans := 1,
          outstandingBalance := 3025 / 3,
          lastTransaction :=
            some ⟨"id_2_tx", "u1", "tint", 300, "full", 0, 0, "completed", "d2", none⟩ } := by
  simp [getAccountSummary, getTransactions, getActiveLoans, nullToNumber, List.filter]
  norm_num

/-- C14: the transactions returned by `getMonthlySummary(userId, year, month)`
are exactly the stored transactions of `userId` whose date reads, on the
`Date` object, as the given year and as month `month - 1` (months counted from
0, so `month` is 1-indexed); they come in storage order, none is omitted or
duplicated, and `totalAmount` is the sum of their amounts. -/
theorem getMonthlySummary_spec (cal : Calendar) (s : Store) (userId : String)
    (year month : Int) :
    (∀ t, t ∈ (getMonthlySummary cal s userId year month).transactions
        ↔ t ∈ s.transactions ∧ t.userId = userId ∧ cal.getFullYear t.date = some year
          ∧ cal.getMonth t.date = some (month - 1))
      ∧ (getMonthlySummary cal s userId year month).transactions
        = s.transactions.filter
            (fun t => t.userId == userId
              && (cal.getFullYear t.date == some year && cal.getMonth t.date == some (month - 1)))
      ∧ (getMonthlySummary cal s userId year month).transactions.Sublist s.transactions
      ∧ (getMonthlySummary cal s userId year month).totalAmount
        = ((getMonthlySummary cal s userId year month).transactions.map Transaction.amount).sum
      ∧ (getMonthlySummary cal s userId year month).month = month
      ∧ (getMonthlySummary cal s userId year month).year = year := by
  have heq : (getMonthlySummary cal s userId year month).transactions
      = s.transactions.filter
          (fun t => t.userId == userId
            && (cal.getFullYear t.date == some year && cal.getMonth t.date == some (month - 1))) := by
    simp only [getMonthlySummary, getTransactions, List.filter_filter]
    congr 1
    funext t
    rw [Bool.and_comm]
  refine ⟨?_, heq, ?_, ?_, rfl, rfl⟩
  · intro t
    rw [heq]
    simp [List.mem_filter, and_assoc]
  · rw [heq]
    exact List.filter_sublist _
  · simp only [getMonthlySummary]
    rw [foldl_add_eq_sum Transaction.amount]
    simp

/-! ## Listing transactions -/

/-- C15: `getTransactions(userId)` returns exactly the stored transactions
whose `userId` is the given one, in storage order; after
`processTransaction(userId, details)` it returns its previous value followed by
the newly created transaction. -/
theorem getTransactions_spec (s : Store) (txId txDate : String) (g : LoanStamp)
    (userId : String) (details : Details) :
    (∀ t, t ∈ getTransactions s userId ↔ t ∈ s.transactions ∧ t.userId = userId)
      ∧ getTransactions s userId = s.transactions.filter (fun t => t.userId == userId)
      ∧ (getTransactions s userId).Sublist s.transactions
      ∧ getTransactions (processTransaction s txId txDate g userId details).2 userId
        = getTransactions s userId ++ [(processTransaction s txId txDate g userId details).1] := by
  refine ⟨?_, rfl, List.filter_sublist _, ?_⟩
  · intro t
    simp [getTransactions, List.mem_filter]
  · have hself : (getTransactions s userId).filter (fun t => t.userId == userId)
        = getTransactions s userId := by
      simp [getTransactions, List.filter_filter]
    by_cases hb : details.method = "bank"
    · have hni : details.method ≠ "installment" := by
        rw [hb]
        decide
      have h2 : (processTransaction s txId txDate g userId details).2.transactions
          = getTransactions s userId ++ [(processTransaction s txId txDate g userId details).1] := by
        simp [processTransaction, hb]
      have h3 : (processTransaction s txId txDate g userId details).1.userId = userId := by
        simp [processTransaction, hb]
      show ((processTransaction s txId txDate g userId details).2.transactions.filter
        (fun t => t.userId == userId)) = _
      rw [h2, List.filter_append, hself]
      simp [h3]
    · have h2 : (processTransaction s txId txDate g userId details).2.transactions
          = getTransactions s userId ++ [(processTransaction s txId txDate g userId details).1] := by
        by_cases hi : details.method = "installment"
        · simp [processTransaction, hb, hi, createLoan]
        · simp [processTransaction, hb, hi]
      have h3 : (processTransaction s txId txDate g userId details).1.userId = userId := by
        simp [processTransaction, hb]
      show ((processTransaction s txId txDate g userId details).2.transactions.filter
        (fun t => t.userId == userId)) = _
      rw [h2, List.filter_append, hself]
      simp [h3]

/-! ## User balances and registration -/

/-- C16: `processTransaction`, `updateTransactionStatus`, `createLoan` and
`makePayment` leave the stored users collection, hence every balance, as it
was; `updateUserBalance` is the operation that changes a balance: it adds the
amount to the balance of the first user with the given id and keeps the
transactions and loans. -/
theorem users_unchanged_by_ledger (s : Store) (txId txDate : String) (g : LoanStamp)
    (userId : String) (details : Details) (transactionId newStatus : String)
    (amount interestRate : ℚ) (term : Int) (date loanId : String) (paid delta : ℚ) :
    (processTransaction s txId txDate g userId details).2.users = s.users
      ∧ (updateTransactionStatus s transactionId newStatus).2.users = s.users
      ∧ (createLoan s g userId transactionId amount interestRate term).2.users = s.users
      ∧ (makePayment s date loanId paid).2.users = s.users
      ∧ (updateUserBalance s userId delta).transactions = s.transactions
      ∧ (updateUserBalance s userId delta).loans = s.loans
      ∧ (∀ pre u post, s.users = pre ++ u :: post → (∀ x ∈ pre, x.id ≠ userId) →
          u.id = userId →
          (updateUserBalance s userId delta).users
            = pre ++ { u with balance := u.balance + delta } :: post) := by
  refine ⟨?_, ?_, rfl, ?_, ?_, ?_, ?_⟩
  · by_cases hb : details.method = "bank"
    · have hni : details.method ≠ "installment" := by
        rw [hb]
        decide
      simp [processTransaction, hb]
    · by_cases hi : details.method = "installment"
      · simp [processTransaction, hb, hi, createLoan]
      · simp [processTransaction, hb, hi]
  · unfold updateTransactionStatus
    dsimp only
    split <;> rfl
  · cases hfind : s.loans.find? (fun l => l.id == loanId) with
    | none => rw [makePayment_of_find_none s date loanId paid hfind]
    | some l => rw [makePayment_of_find_some s date loanId paid l hfind]
  · unfold updateUserBalance
    dsimp only
    split <;> rfl
  · unfold updateUserBalance
    dsimp only
    split <;> rfl
  · intro pre u post hs hpre hu
    have hfind : s.users.find? (fun u => u.id == userId) = some u := by
      rw [hs, List.find?_append]
      have hnone : pre.find? (fun u => u.id == userId) = none := by
        simpa [List.find?_eq_none] using hpre
      simp [hnone, hu]
    have hmod : modifyFirst (fun u : User => u.id == userId)
        (fun u => { u with balance := u.balance + delta }) (pre ++ u :: post)
        = pre ++ { u with balance := u.balance + delta } :: post := by
      clear hs hfind
      induction pre with
      | nil => simp [modifyFirst, hu]
      | cons y ys ih =>
        have hy : y.id ≠ userId := hpre y (List.mem_cons_self y ys)
        have hys : ∀ x ∈ ys, x.id ≠ userId := fun x hx => hpre x (List.mem_cons_of_mem y hx)
        simp [modifyFirst, hy, ih hys]
    simp only [updateUserBalance, getAllUsers, hfind]
    rw [hs, hmod]

/-- C17: if the stored users have pairwise distinct emails they still have
after `registerNewUser(name, email, phone, password)`; when a stored user has
exactly that email the call returns `null` and the store is unchanged, and
otherwise exactly one user is appended, with that email and balance `0`, whose
public fields are returned. -/
theorem registerNewUser_email_unique (s : Store) (newId now : String)
    (name email phone password : String)
    (hnodup : (s.users.map User.email).Nodup) :
    ((registerNewUser s newId now name email phone password).2.users.map User.email).Nodup
      ∧ ((∃ u ∈ s.users, u.email = email) →
          registerNewUser s newId now name email phone password = (none, s))
      ∧ ((∀ u ∈ s.users, u.email ≠ email) →
          ∃ u : User,
            (registerNewUser s newId now name email phone password).2.users = s.users ++ [u]
              ∧ u.email = email ∧ u.balance = 0 ∧ u.id = newId
              ∧ (registerNewUser s newId now name email phone password).1
                = some { id := newId, name := name, email := email, phone := phone, balance := 0 }
              ∧ (registerNewUser s newId now name email phone password).2.transactions
                = s.transactions
              ∧ (registerNewUser s newId now name email phone password).2.loans = s.loans) := by
  have hdup : (∃ u ∈ s.users, u.email = email) →
      registerNewUser s newId now name email phone password = (none, s) := by
    intro hex
    cases hf : s.users.find? (fun u => u.email == email) with
    | some u0 => simp only [registerNewUser, getAllUsers, hf]
    | none =>
      obtain ⟨u, hu, he⟩ := hex
      have := (List.find?_eq_none.mp hf) u hu
      simp [he] at this
  have hnew : (∀ u ∈ s.users, u.email ≠ email) →
      registerNewUser s newId now name email phone password
        = (some { id := newId, name := name, email := email, phone := phone, balance := 0 },
            { s with
              users := s.users
                ++ [(⟨newId, name, email, phone, hashPassword password, 0, now⟩ : User)] }) := by
    intro hall
    have hf : s.users.find? (fun u => u.email == email) = none := by
      simpa [List.find?_eq_none] using hall
    simp only [registerNewUser, getAllUsers, hf]
  refine ⟨?_, hdup, ?_⟩
  · by_cases hex : ∃ u ∈ s.users, u.email = email
    · rw [hdup hex]
      exact hnodup
    · have hall : ∀ u ∈ s.users, u.email ≠ email := by
        intro u hu he
        exact hex ⟨u, hu, he⟩
      rw [hnew hall]
      simp only [List.map_append, List.map_cons, List.map_nil]
      rw [List.nodup_append]
      refine ⟨hnodup, List.nodup_singleton _, ?_⟩
      intro e he he'
      obtain ⟨u, hu, hue⟩ := List.mem_map.mp he
      have : e = email := by simpa using he'
      exact hall u hu (by rw [hue, this])
  · intro hall
    rw [hnew hall]
    exact ⟨_, rfl, rfl, rfl, rfl, rfl, rfl, rfl⟩

/-- Instance of C17: registering a second, different email in a store with
one user keeps the emails distinct. -/
theorem registerNewUser_email_unique_witness :
    ((registerNewUser
        ⟨[⟨"id_0_user", "Ann", "ann@x.org", "011", "3591", 0, "d0"⟩], [], []⟩
        "id_1_user" "d1" "Bob" "bob@x.org" "022" "pw").2.users.map User.email).Nodup
      ∧ (registerNewUser
        ⟨[⟨"id_0_user", "Ann", "ann@x.org", "011", "3591", 0, "d0"⟩], [], []⟩
        "id_1_user" "d1" "Bob" "ann@x.org" "022" "pw")
        = (none, ⟨[⟨"id_0_user", "Ann", "ann@x.org", "011", "3591", 0, "d0"⟩], [], []⟩) :=
  ⟨(registerNewUser_email_unique
      ⟨[⟨"id_0_user", "Ann", "ann@x.org", "011", "3591", 0, "d0"⟩], [], []⟩
      "id_1_user" "d1" "Bob" "bob@x.org" "022" "pw" (by decide)).1,
   (registerNewUser_email_unique
      ⟨[⟨"id_0_user", "Ann", "ann@x.org", "011", "3591", 0, "d0"⟩], [], []⟩
      "id_1_user" "d1" "Bob" "ann@x.org" "022" "pw" (by decide)).2.1
      ⟨⟨"id_0_user", "Ann", "ann@x.org", "011", "3591", 0, "d0"⟩, by simp, rfl⟩⟩

/-! ## Frame of a payment -/

/-- C18: a `makePayment(loanId, amount)` that returns `true` replaces the
first stored loan with id `loanId` by the same loan with one payment entry
carrying exactly `amount` appended after the earlier entries, `termRemaining`
decreased by 1 and the status possibly set to `'completed'`; its other fields
(`id`, `userId`, `transactionId`, `originalAmount`, `totalAmount`,
`interestRate`, `monthlyPayment`, `term`, `startDate`, `nextPaymentDate`), every
other loan, the order of the loans, the users and the transactions are
unchanged. -/
theorem makePayment_frame (s : Store) (date loanId : String) (amount : ℚ)
    (hok : (makePayment s date loanId amount).1 = true) :
    (makePayment s date loanId amount).2.users = s.users
      ∧ (makePayment s date loanId amount).2.transactions = s.transactions
      ∧ ∃ pre l post,
          s.loans = pre ++ l :: post
            ∧ (∀ x ∈ pre, x.id ≠ loanId)
            ∧ l.id = loanId
            ∧ (makePayment s date loanId amount).2.loans
              = pre ++
                  { l with
                    payments := l.payments ++ [{ date := date, amount := amount }]
                    termRemaining := l.termRemaining - 1
                    status := if l.termRemaining - 1 ≤ 0 then "completed" else l.status }
                  :: post := by
  cases hfind : s.loans.find? (fun l => l.id == loanId) with
  | none =>
    rw [makePayment_of_find_none s date loanId amount hfind] at hok
    exact absurd hok (by simp)
  | some l0 =>
    obtain ⟨pre, l, post, h1, h2, h3, h4⟩ := modifyFirst_split
      (fun l : Loan => l.id == loanId) (applyPaymentTo date amount) s.loans
      (exists_of_find?_some _ _ l0 hfind)
    rw [makePayment_of_find_some s date loanId amount l0 hfind]
    refine ⟨rfl, rfl, pre, l, post, h1, ?_, by simpa using h3, ?_⟩
    · intro x hx
      simpa using h2 x hx
    · show modifyFirst (fun l : Loan => l.id == loanId) (applyPaymentTo date amount) s.loans = _
      rw [h4, applyPaymentTo_eq]

/-- Instance of C18: a payment of 5 on the second of two loans. -/
theorem makePayment_frame_witness :
    ∃ pre l post,
      (⟨[], [],
          [⟨"id_1_loan", "u1", "id_0_tx", 100, 110, 1/10, some 55, 2, 2, "active", "d0", "d1", []⟩,
           ⟨"id_2_loan", "u2", "id_3_tx", 300, 300, 0, some 100, 3, 1, "active", "d0", "d1",
             [⟨"d2", 1⟩, ⟨"d3", 2⟩]⟩]⟩ : Store).loans = pre ++ l :: post
        ∧ l.id = "id_2_loan"
        ∧ (makePayment
            ⟨[], [],
              [⟨"id_1_loan", "u1", "id_0_tx", 100, 110, 1/10, some 55, 2, 2, "active", "d0", "d1",
                 []⟩,
               ⟨"id_2_loan", "u2", "id_3_tx", 300, 300, 0, some 100, 3, 1, "active", "d0", "d1",
                 [⟨"d2", 1⟩, ⟨"d3", 2⟩]⟩]⟩
            "d4" "id_2_loan" 5).2.loans
          = pre ++
              { l with
                payments := l.payments ++ [{ date := "d4", amount := 5 }]
                termRemaining := l.termRemaining - 1
                status := if l.termRemaining - 1 ≤ 0 then "completed" else l.status }
              :: post := by
  obtain ⟨_, _, pre, l, post, h1, _, h3, h4⟩ :=
    makePayment_frame
      ⟨[], [],
        [⟨"id_1_loan", "u1", "id_0_tx", 100, 110, 1/10, some 55, 2, 2, "active", "d0", "d1", []⟩,
         ⟨"id_2_loan", "u2", "id_3_tx", 300, 300, 0, some 100, 3, 1, "active", "d0", "d1",
           [⟨"d2", 1⟩, ⟨"d3", 2⟩]⟩]⟩
      "d4" "id_2_loan" 5 (by decide)
  exact ⟨pre, l, post, h1, h3, h4⟩

/-! ## Loans created without an installment -/

/-- C20: when `details.method` is not `'installment'` (for instance `'full'`
or `'bank'`), `processTransaction` leaves the stored loans as they were. -/
theorem processTransaction_no_loan (s : Store) (txId txDate : String) (g : LoanStamp)
    (userId : String) (details : Details) (hmethod : details.method ≠ "installment") :
    (processTransaction s txId txDate g userId details).2.loans = s.loans := by
  by_cases hb : details.method = "bank"
  · simp [processTransaction, hb]
  · simp [processTransaction, hb, hmethod]

/-- Instance of C20 for the methods `'full'` and `'bank'`. -/
theorem processTransaction_no_loan_witness :
    (processTransaction
        ⟨[], [], [⟨"id_1_loan", "u1", "id_0_tx", 100, 110, 1/10, some 55, 2, 2, "active", "d0",
          "d1", []⟩]⟩
        "id_4_tx" "d2" ⟨"id_5_loan", "d2", "d3"⟩ "u1"
        ⟨some "tint", none, 300, "full", 0, 0, none⟩).2.loans
        = [⟨"id_1_loan", "u1", "id_0_tx", 100, 110, 1/10, some 55, 2, 2, "active", "d0", "d1", []⟩]
      ∧ (processTransaction
        ⟨[], [], [⟨"id_1_loan", "u1", "id_0_tx", 100, 110, 1/10, some 55, 2, 2, "active", "d0",
          "d1", []⟩]⟩
        "id_4_tx" "d2" ⟨"id_5_loan", "d2", "d3"⟩ "u1"
        ⟨some "tint", none, 300, "bank", 12, 1/10, none⟩).2.loans
        = [⟨"id_1_loan", "u1", "id_0_tx", 100, 110, 1/10, some 55, 2, 2, "active", "d0", "d1", []⟩] :=
  ⟨processTransaction_no_loan _ "id_4_tx" "d2" ⟨"id_5_loan", "d2", "d3"⟩ "u1"
      ⟨some "tint", none, 300, "full", 0, 0, none⟩ (by decide),
   processTransaction_no_loan _ "id_4_tx" "d2" ⟨"id_5_loan", "d2", "d3"⟩ "u1"
      ⟨some "tint", none, 300, "bank", 12, 1/10, none⟩ (by decide)⟩

/-! ## Reachable stores -/

theorem applyPaymentTo_sound (date : String) (amount : ℚ) (l : Loan) (h : loanSound l) :
    loanSound (applyPaymentTo date amount l) := by
  obtain ⟨h1, _, h3, h4⟩ := h
  unfold loanSound
  rw [applyPaymentTo_term, applyPaymentTo_status, applyPaymentTo_termRemaining,
    applyPaymentTo_monthlyPayment, applyPaymentTo_totalAmount, applyPaymentTo_payments]
  refine ⟨h1, ?_, h3, ?_⟩
  · intro hact
    by_cases hle : l.termRemaining - 1 ≤ 0
    · rw [if_pos hle] at hact
      exact absurd hact (by decide)
    · omega
  · simp only [List.length_append, List.length_cons, List.length_nil]
    push_cast
    omega

theorem createLoan_sound (s : Store) (g : LoanStamp) (userId transactionId : String)
    (amount interestRate : ℚ) (term : Int)
    (h : 1 ≤ term ∧ 0 ≤ amount ∧ 0 ≤ interestRate) :
    loanSound (createLoan s g userId transactionId amount interestRate term).1 := by
  obtain ⟨hT, ha, hr⟩ := h
  have hT0 : term ≠ 0 := by omega
  have hTq : (0 : ℚ) < (term : ℚ) := by exact_mod_cast (by omega : (0 : Int) < term)
  refine ⟨hT, fun _ => hT, ?_, ?_⟩
  · refine ⟨(amount + amount * interestRate) / (term : ℚ), ?_, ?_, ?_⟩
    · simp [createLoan, jsDiv, hT0]
    · apply div_nonneg _ hTq.le
      have := mul_nonneg ha hr
      linarith
    · simp only [createLoan]
      field_simp
  · simp [createLoan]

theorem applyOp_sound (s : Store) (op : LedgerOp) (hs : ∀ l ∈ s.loans, loanSound l)
    (hop : admissibleOp op) : ∀ l ∈ (applyOp s op).loans, loanSound l := by
  cases op with
  | create g userId transactionId amount interestRate term =>
    intro l hl
    have hloans : (applyOp s (LedgerOp.create g userId transactionId amount interestRate
        term)).loans
        = s.loans ++ [(createLoan s g userId transactionId amount interestRate term).1] := rfl
    rw [hloans] at hl
    rcases List.mem_append.mp hl with h | h
    · exact hs l h
    · have hl' : l = (createLoan s g userId transactionId amount interestRate term).1 := by
        simpa using h
      rw [hl']
      exact createLoan_sound s g userId transactionId amount interestRate term hop
  | pay c =>
    have hloans : (applyOp s (LedgerOp.pay c)).loans
        = modifyFirst (fun l => l.id == c.loanId) (applyPaymentTo c.date c.amount) s.loans :=
      makePayment_loans s c.date c.loanId c.amount
    rw [hloans]
    exact modifyFirst_forall _ _ loanSound (applyPaymentTo_sound c.date c.amount) s.loans hs

theorem runOps_sound (ops : List LedgerOp) (s : Store) (hs : ∀ l ∈ s.loans, loanSound l)
    (hops : ∀ op ∈ ops, admissibleOp op) : ∀ l ∈ (runOps s ops).loans, loanSound l := by
  induction ops generalizing s with
  | nil => exact hs
  | cons op rest ih =>
    have h1 := applyOp_sound s op hs (hops op (List.mem_cons_self op rest))
    exact ih (applyOp s op) h1 (fun o ho => hops o (List.mem_cons_of_mem op ho))

/-- C19: in every store reached from the empty store by `createLoan` calls
with `term ≥ 1`, `amount ≥ 0`, `interestRate ≥ 0` and by `makePayment` calls
(whether or not the loan ids are pairwise distinct), every loan with status
`'active'` has `termRemaining ≥ 1`, the `outstandingBalance` of
`getAccountSummary` is `≥ 0` for every user, and a loan of term `T` with
`k < T` payments has `monthlyPayment * termRemaining = totalAmount * (T - k) / T`. -/
theorem reachable_active_loans (ops : List LedgerOp) (hops : ∀ op ∈ ops, admissibleOp op) :
    (∀ l ∈ (runOps emptyStore ops).loans, l.status = "active" → 1 ≤ l.termRemaining)
      ∧ (∀ userId : String,
          0 ≤ (getAccountSummary (runOps emptyStore ops) userId).outstandingBalance)
      ∧ (∀ l ∈ (runOps emptyStore ops).loans, (l.payments.length : Int) < l.term →
          ∃ m : ℚ, l.monthlyPayment = some m
            ∧ m * (l.termRemaining : ℚ)
              = l.totalAmount * ((l.term : ℚ) - (l.payments.length : ℚ)) / (l.term : ℚ)) := by
  have hsound : ∀ l ∈ (runOps emptyStore ops).loans, loanSound l :=
    runOps_sound ops emptyStore (by simp [emptyStore]) hops
  refine ⟨fun l hl => (hsound l hl).2.1, ?_, ?_⟩
  · intro userId
    simp only [getAccountSummary, getActiveLoans]
    rw [foldl_add_eq_sum (fun l : Loan => nullToNumber l.monthlyPayment * (l.termRemaining : ℚ))]
    rw [zero_add]
    apply List.sum_nonneg
    intro x hx
    obtain ⟨l, hl, hlx⟩ := List.mem_map.mp hx
    rw [List.mem_filter] at hl
    have hact : l.status = "active" := by
      have := hl.2
      simp at this
      exact this.2
    obtain ⟨_, h2, ⟨m, hm, hm0, _⟩, _⟩ := hsound l hl.1
    have htr : (0 : ℚ) ≤ (l.termRemaining : ℚ) := by
      exact_mod_cast (by have := h2 hact; omega : (0 : Int) ≤ l.termRemaining)
    rw [← hlx, hm]
    exact mul_nonneg hm0 htr
  · intro l hl _
    obtain ⟨h1, _, ⟨m, hm, _, hmT⟩, h4⟩ := hsound l hl
    have hTq : (l.term : ℚ) ≠ 0 := by
      exact_mod_cast (by omega : l.term ≠ 0)
    have htr : (l.termRemaining : ℚ) = (l.term : ℚ) - (l.payments.length : ℚ) := by
      have : l.termRemaining = l.term - (l.payments.length : Int) := by omega
      rw [this]
      push_cast
      ring
    refine ⟨m, hm, ?_⟩
    rw [htr, ← hmT]
    field_simp
    ring

/-- Instance of C19: a loan of 1000 at rate 1/10 over 12 months followed by
one payment gives user `"u1"` a non-negative outstanding balance. -/
theorem reachable_active_loans_witness :
    0 ≤ (getAccountSummary
        (runOps emptyStore
          [LedgerOp.create ⟨"id_1_loan", "d0", "d1"⟩ "u1" "id_0_tx" 1000 (1/10) 12,
           LedgerOp.pay ⟨"d2", "id_1_loan", 5⟩]) "u1").outstandingBalance :=
  (reachable_active_loans
    [LedgerOp.create ⟨"id_1_loan", "d0", "d1"⟩ "u1" "id_0_tx" 1000 (1/10) 12,
     LedgerOp.pay ⟨"d2", "id_1_loan", 5⟩]
    (by
      intro op hop
      simp only [List.mem_cons, List.mem_singleton, List.not_mem_nil, or_false] at hop
      rcases hop with h | h
      · rw [h]
        simp only [admissibleOp]
        norm_num
      · rw [h]
        simp only [admissibleOp])).2.1 "u1"

end Banking
